import Mathlib

/-!
Verification of the JustHTML HTML5 parser (shallow embedding).

Each section embeds, directly from the Python source under `src/justhtml/`,
the definitions needed to settle one or more claims about the parser, and
proves the corresponding theorems.  Byte strings are modelled as `List Nat`
(each entry a byte value 0..255), Python `str` as Lean `String`,
`None`-able values as `Option`, and Python `dict` (insertion-ordered) as
association lists.
-/

namespace JustHTML

/-! ## Encoding sniffing (`src/justhtml/encoding.py`)

`_ASCII_WHITESPACE = {0x09, 0x0A, 0x0C, 0x0D, 0x20}` -/

def isAsciiWhitespaceByte (b : Nat) : Bool :=
  b == 0x09 || b == 0x0A || b == 0x0C || b == 0x0D || b == 0x20

/-- `_ascii_lower` from encoding.py: lowercase a single byte. -/
def ascii_lower (b : Nat) : Nat :=
  if 0x41 ≤ b ∧ b ≤ 0x5A then b ||| 0x20 else b

/-- `_is_ascii_alpha` from encoding.py. -/
def is_ascii_alpha (b : Nat) : Bool :=
  decide (0x61 ≤ ascii_lower b ∧ ascii_lower b ≤ 0x7A)

/-- Python `data[i]` on bytes, used only at guarded indices. -/
def byteAt (data : List Nat) (i : Nat) : Nat := data.getD i 0

/-- `_skip_ascii_whitespace(data, i)`: first index `≥ i` (and `≤ n`) whose
byte is not ASCII whitespace.  Structured as recursion on `n - i`. -/
def skip_ascii_whitespace (data : List Nat) (i : Nat) : Nat :=
  if h : i < data.length ∧ isAsciiWhitespaceByte (byteAt data i) then
    skip_ascii_whitespace data (i + 1)
  else i
termination_by data.length - i

/-- `_strip_ascii_whitespace(value)` from encoding.py (on a present value). -/
def strip_ascii_whitespace_bytes (value : List Nat) : List Nat :=
  ((value.dropWhile (fun b => isAsciiWhitespaceByte b)).reverse.dropWhile
    (fun b => isAsciiWhitespaceByte b)).reverse

/-- Characters stripped by Python `str.strip()` (ASCII range; the encoding
labels involved are ASCII). -/
def isPyStripChar (c : Char) : Bool :=
  c == ' ' || c == '\t' || c == '\n' || c == '\r' || c == '\x0b' || c == '\x0c'

/-- Python `s.strip()` on a string. -/
def pyStrip (s : String) : String :=
  ⟨((s.toList.dropWhile isPyStripChar).reverse.dropWhile isPyStripChar).reverse⟩

/-- Python `s.lower()` (ASCII; encoding labels are ASCII). -/
def pyLower (s : String) : String := ⟨s.toList.map Char.toLower⟩

/-- `normalize_encoding_label(label)` from encoding.py, for string labels
(the parser entry point always passes `str | None`).  A byte label would
first be decoded as ASCII; that path is not used by `JustHTML.__init__`. -/
def normalize_encoding_label (label : Option String) : Option String :=
  match label with
  | none => none
  | some l =>
    if l = "" then none
    else
      let s := pyStrip l
      if s = "" then none
      else
        let s := pyLower s
        if s ∈ ["utf-7", "utf7", "x-utf-7"] then some "windows-1252"
        else if s ∈ ["utf-8", "utf8"] then some "utf-8"
        else if s ∈ ["iso-8859-1", "iso8859-1", "latin1", "latin-1", "l1",
                     "cp819", "ibm819"] then some "windows-1252"
        else if s ∈ ["windows-1252", "windows1252", "cp1252", "x-cp1252"] then
          some "windows-1252"
        else if s ∈ ["iso-8859-2", "iso8859-2", "latin2", "latin-2"] then
          some "iso-8859-2"
        else if s ∈ ["euc-jp", "eucjp"] then some "euc-jp"
        else if s ∈ ["utf-16", "utf16"] then some "utf-16"
        else if s ∈ ["utf-16le", "utf16le"] then some "utf-16le"
        else if s ∈ ["utf-16be", "utf16be"] then some "utf-16be"
        else none

/-- `_normalize_meta_declared_encoding(label)` from encoding.py, taking the
charset bytes found by the prescan (decoded as an ASCII string). -/
def normalize_meta_declared_encoding (label : Option String) : Option String :=
  match normalize_encoding_label label with
  | none => none
  | some enc =>
    if enc ∈ ["utf-16", "utf-16le", "utf-16be", "utf-32", "utf-32le",
              "utf-32be"] then some "utf-8"
    else some enc

/-- `_sniff_bom(data)` from encoding.py. -/
def sniff_bom (data : List Nat) : Option String × Nat :=
  if data.length ≥ 3 ∧ data.take 3 = [0xEF, 0xBB, 0xBF] then (some "utf-8", 3)
  else if data.length ≥ 2 ∧ data.take 2 = [0xFF, 0xFE] then (some "utf-16le", 2)
  else if data.length ≥ 2 ∧ data.take 2 = [0xFE, 0xFF] then (some "utf-16be", 2)
  else (none, 0)

/-- Python slice `data[a:b]` on bytes. -/
def bytesSlice (data : List Nat) (a b : Nat) : List Nat :=
  (data.drop a).take (b - a)

/-- Python `bytes.lower()`. -/
def bytesLower (bs : List Nat) : List Nat := bs.map ascii_lower

/-- Python `data.find(bytes((b,)), k)` for a single byte, as an `Option`. -/
def bytesFindByteFrom (data : List Nat) (b : Nat) (k : Nat) : Option Nat :=
  if h : k < data.length then
    if byteAt data k = b then some k else bytesFindByteFrom data b (k + 1)
  else none
termination_by data.length - k

/-- Python `data.find(pat, k)` for a byte pattern, as an `Option`. -/
def bytesFindSubFrom (data pat : List Nat) (k : Nat) : Option Nat :=
  if h : k + pat.length ≤ data.length then
    if bytesSlice data k (k + pat.length) = pat then some k
    else bytesFindSubFrom data pat (k + 1)
  else none
termination_by data.length + 1 - k

/-- Python `bytes.decode("ascii", "ignore")`: keep bytes < 0x80 as chars. -/
def bytesToAsciiIgnore (bs : List Nat) : String :=
  ⟨(bs.filter (fun b => b < 0x80)).map (fun b => Char.ofNat b)⟩

/-- End of the run of ASCII alphabetic bytes starting at `j`
(the `while j < n and _is_ascii_alpha(data[j])` loop in the prescan). -/
def prescanTagNameEnd (data : List Nat) (j : Nat) : Nat :=
  if h : j < data.length ∧ is_ascii_alpha (byteAt data j) then
    prescanTagNameEnd data (j + 1)
  else j
termination_by data.length - j

/-- End of an attribute name in the meta prescan: the
`while k < n: ... if ch in ws or ch in {0x3D, 0x3E, 0x2F, 0x3C}: break` loop. -/
def prescanAttrNameEnd (data : List Nat) (k : Nat) : Nat :=
  if h : k < data.length ∧
      ¬(isAsciiWhitespaceByte (byteAt data k) ∨ byteAt data k = 0x3D ∨
        byteAt data k = 0x3E ∨ byteAt data k = 0x2F ∨ byteAt data k = 0x3C) then
    prescanAttrNameEnd data (k + 1)
  else k
termination_by data.length - k

/-- End of an unquoted attribute value in the meta prescan: the
`while k < n: ... if ch in ws or ch in {0x3E, 0x3C}: break` loop. -/
def prescanUnquotedEnd (data : List Nat) (k : Nat) : Nat :=
  if h : k < data.length ∧
      ¬(isAsciiWhitespaceByte (byteAt data k) ∨ byteAt data k = 0x3E ∨
        byteAt data k = 0x3C) then
    prescanUnquotedEnd data (k + 1)
  else k
termination_by data.length - k

/-- The quote-aware tag-skipping loop of `_prescan_for_meta_charset`
(used both for end tags and for non-`meta` tags; lines 199-215 and 231-247
of encoding.py).  Returns the updated `(k, non_comment)`. -/
def prescanSkipTag (data : List Nat) (k nc : Nat) (quote : Option Nat) :
    Nat × Nat :=
  if h : k < data.length ∧ k < 65536 ∧ nc < 1024 then
    let ch := byteAt data k
    match quote with
    | none =>
      if ch = 0x22 ∨ ch = 0x27 then prescanSkipTag data (k + 1) (nc + 1) (some ch)
      else if ch = 0x3E then (k + 1, nc + 1)
      else prescanSkipTag data (k + 1) (nc + 1) none
    | some q =>
      if ch = q then prescanSkipTag data (k + 1) (nc + 1) none
      else prescanSkipTag data (k + 1) (nc + 1) (some q)
  else (k, nc)
termination_by data.length - k

/-- `_extract_charset_from_content`: end of the value scan loop
(`while i < n: ...` at lines 155-162 of encoding.py) over the
whitespace-normalized, lowercased bytes `s`. -/
def extractValueEnd (s : List Nat) (quote : Option Nat) (i : Nat) : Nat :=
  if h : i < s.length then
    match quote with
    | some q => if byteAt s i = q then i else extractValueEnd s (some q) (i + 1)
    | none =>
      if isAsciiWhitespaceByte (byteAt s i) ∨ byteAt s i = 0x3B then i
      else extractValueEnd s none (i + 1)
  else i
termination_by s.length - i

/-- `_extract_charset_from_content(content_bytes)` from encoding.py. -/
def extract_charset_from_content (content_bytes : List Nat) : Option (List Nat) :=
  if content_bytes = [] then none
  else
    let s := content_bytes.map
      (fun ch => if isAsciiWhitespaceByte ch then 0x20 else ascii_lower ch)
    match bytesFindSubFrom s [0x63, 0x68, 0x61, 0x72, 0x73, 0x65, 0x74] 0 with
    | none => none
    | some idx =>
      let i := skip_ascii_whitespace s (idx + 7)
      if h : ¬(i < s.length ∧ byteAt s i = 0x3D) then none
      else
        let i := skip_ascii_whitespace s (i + 1)
        if i ≥ s.length then none
        else
          let quote : Option Nat :=
            if byteAt s i = 0x22 ∨ byteAt s i = 0x27 then some (byteAt s i)
            else none
          let start := if quote.isSome then i + 1 else i
          let e := extractValueEnd s quote start
          if quote.isSome ∧ (e ≥ s.length ∨ some (byteAt s e) ≠ quote) then none
          else some (bytesSlice s start e)

theorem skip_ascii_whitespace_ge (data : List Nat) (i : Nat) :
    i ≤ skip_ascii_whitespace data i := by
  unfold skip_ascii_whitespace
  split
  · exact Nat.le_trans (Nat.le_succ i) (skip_ascii_whitespace_ge data (i + 1))
  · exact Nat.le_refl i
termination_by data.length - i

theorem prescanTagNameEnd_ge (data : List Nat) (j : Nat) :
    j ≤ prescanTagNameEnd data j := by
  unfold prescanTagNameEnd
  split
  · exact Nat.le_trans (Nat.le_succ j) (prescanTagNameEnd_ge data (j + 1))
  · exact Nat.le_refl j
termination_by data.length - j

theorem prescanAttrNameEnd_ge (data : List Nat) (k : Nat) :
    k ≤ prescanAttrNameEnd data k := by
  unfold prescanAttrNameEnd
  split
  · exact Nat.le_trans (Nat.le_succ k) (prescanAttrNameEnd_ge data (k + 1))
  · exact Nat.le_refl k
termination_by data.length - k

theorem prescanUnquotedEnd_ge (data : List Nat) (k : Nat) :
    k ≤ prescanUnquotedEnd data k := by
  unfold prescanUnquotedEnd
  split
  · exact Nat.le_trans (Nat.le_succ k) (prescanUnquotedEnd_ge data (k + 1))
  · exact Nat.le_refl k
termination_by data.length - k

theorem bytesFindByteFrom_ge (data : List Nat) (b k i : Nat)
    (h : bytesFindByteFrom data b k = some i) : k ≤ i := by
  unfold bytesFindByteFrom at h
  split at h
  · split at h
    · cases h; exact Nat.le_refl _
    · exact Nat.le_trans (Nat.le_succ k) (bytesFindByteFrom_ge data b (k + 1) i h)
  · cases h
termination_by data.length - k

theorem bytesFindSubFrom_ge (data pat : List Nat) (k i : Nat)
    (h : bytesFindSubFrom data pat k = some i) : k ≤ i := by
  unfold bytesFindSubFrom at h
  split at h
  · split at h
    · cases h; exact Nat.le_refl _
    · exact Nat.le_trans (Nat.le_succ k) (bytesFindSubFrom_ge data pat (k + 1) i h)
  · cases h
termination_by data.length + 1 - k

theorem prescanSkipTag_ge (data : List Nat) (k nc : Nat) (quote : Option Nat) :
    k ≤ (prescanSkipTag data k nc quote).1 := by
  unfold prescanSkipTag
  split
  · rename_i h
    have h1 : ∀ nc' q', k + 1 ≤ (prescanSkipTag data (k + 1) nc' q').1 :=
      fun nc' q' => prescanSkipTag_ge data (k + 1) nc' q'
    cases quote with
    | none =>
      simp only
      split
      · exact Nat.le_trans (Nat.le_succ k) (h1 _ _)
      · split
        · exact Nat.le_succ k
        · exact Nat.le_trans (Nat.le_succ k) (h1 _ _)
    | some q =>
      simp only
      split
      · exact Nat.le_trans (Nat.le_succ k) (h1 _ _)
      · exact Nat.le_trans (Nat.le_succ k) (h1 _ _)
  · exact Nat.le_refl k
termination_by data.length - k

theorem prescanSkipTag_gt (data : List Nat) (k nc : Nat) (quote : Option Nat)
    (h : k < data.length ∧ k < 65536 ∧ nc < 1024) :
    k + 1 ≤ (prescanSkipTag data k nc quote).1 := by
  unfold prescanSkipTag
  rw [dif_pos h]
  cases quote with
  | none =>
    simp only
    split
    · exact prescanSkipTag_ge data (k + 1) _ _
    · split
      · exact Nat.le_refl _
      · exact prescanSkipTag_ge data (k + 1) _ _
  | some q =>
    simp only
    split
    · exact prescanSkipTag_ge data (k + 1) _ _
    · exact prescanSkipTag_ge data (k + 1) _ _

theorem skip_ascii_whitespace_stop (data : List Nat) (k : Nat)
    (h : ¬ isAsciiWhitespaceByte (byteAt data k) = true) :
    skip_ascii_whitespace data k = k := by
  unfold skip_ascii_whitespace
  rw [dif_neg]
  intro hc
  exact h hc.2

theorem prescanAttrNameEnd_succ (data : List Nat) (k : Nat)
    (h : k < data.length)
    (h2 : ¬(isAsciiWhitespaceByte (byteAt data k) = true ∨ byteAt data k = 0x3D ∨
        byteAt data k = 0x3E ∨ byteAt data k = 0x2F ∨ byteAt data k = 0x3C)) :
    k + 1 ≤ prescanAttrNameEnd data k := by
  unfold prescanAttrNameEnd
  rw [dif_pos ⟨h, by simpa using h2⟩]
  exact prescanAttrNameEnd_ge data (k + 1)

/-- `b"charset"`, `b"http-equiv"`, `b"content"` as byte lists. -/
def charsetBytes : List Nat := [0x63, 0x68, 0x61, 0x72, 0x73, 0x65, 0x74]

def httpEquivBytes : List Nat :=
  [0x68, 0x74, 0x74, 0x70, 0x2D, 0x65, 0x71, 0x75, 0x69, 0x76]

def contentBytes : List Nat := [0x63, 0x6F, 0x6E, 0x74, 0x65, 0x6E, 0x74]

/-- Recording one parsed attribute of a `<meta>` tag (lines 315-320 of
encoding.py): `charset` values are whitespace-stripped, `http-equiv` and
`content` are stored as-is, anything else is discarded.  Assignment always
overwrites the previous value, mirroring the Python code. -/
def applyMetaAttr (attrName : List Nat) (value : Option (List Nat))
    (cs he ct : Option (List Nat)) :
    Option (List Nat) × Option (List Nat) × Option (List Nat) :=
  if attrName = charsetBytes then (value.map strip_ascii_whitespace_bytes, he, ct)
  else if attrName = httpEquivBytes then (cs, value, ct)
  else if attrName = contentBytes then (cs, he, value)
  else (cs, he, ct)

/-- Result of the attribute-parsing loop for a `<meta>` tag
(lines 250-320 of encoding.py).  `unclosedQuote` marks the
"Unclosed quote: ignore this meta" early exit, which additionally
bumped `i` and `non_comment` by one before breaking. -/
structure MetaScan where
  charset : Option (List Nat)
  httpEquiv : Option (List Nat)
  content : Option (List Nat)
  sawGt : Bool
  k : Nat
  unclosedQuote : Bool
  deriving Repr, DecidableEq

/-- The `while k < n and k < max_total_scan` attribute loop over a candidate
`<meta ...>` tag (lines 258-320 of encoding.py). -/
def prescanMetaAttrs (data : List Nat) (k : Nat)
    (cs he ct : Option (List Nat)) : MetaScan :=
  if h : k < data.length ∧ k < 65536 then
    if hgt : byteAt data k = 0x3E then ⟨cs, he, ct, true, k + 1, false⟩
    else if hlt : byteAt data k = 0x3C then ⟨cs, he, ct, false, k, false⟩
    else if hws : isAsciiWhitespaceByte (byteAt data k) ∨ byteAt data k = 0x2F then
      prescanMetaAttrs data (k + 1) cs he ct
    else
      let e := prescanAttrNameEnd data k
      let attrName := bytesLower (bytesSlice data k e)
      let k1 := skip_ascii_whitespace data e
      if hv : k1 < data.length ∧ byteAt data k1 = 0x3D then
        let k2 := skip_ascii_whitespace data (k1 + 1)
        if hn : k2 ≥ data.length then ⟨cs, he, ct, false, k2, false⟩
        else if byteAt data k2 = 0x22 ∨ byteAt data k2 = 0x27 then
          match hq : bytesFindByteFrom data (byteAt data k2) (k2 + 1) with
          | none => ⟨none, none, none, false, k2, true⟩
          | some endq =>
            let value := bytesSlice data (k2 + 1) endq
            let r := applyMetaAttr attrName (some value) cs he ct
            prescanMetaAttrs data (endq + 1) r.1 r.2.1 r.2.2
        else
          let e2 := prescanUnquotedEnd data k2
          let value := bytesSlice data k2 e2
          let r := applyMetaAttr attrName (some value) cs he ct
          prescanMetaAttrs data e2 r.1 r.2.1 r.2.2
      else
        let r := applyMetaAttr attrName none cs he ct
        prescanMetaAttrs data k1 r.1 r.2.1 r.2.2
  else ⟨cs, he, ct, false, k, false⟩
termination_by data.length - k
decreasing_by
  · omega
  · have h1 : k ≤ e := prescanAttrNameEnd_ge data k
    have h2 : e ≤ k1 := skip_ascii_whitespace_ge data e
    have h3 : k1 + 1 ≤ k2 := skip_ascii_whitespace_ge data (k1 + 1)
    have h4 : k2 + 1 ≤ endq :=
      bytesFindByteFrom_ge data (byteAt data k2) (k2 + 1) endq hq
    omega
  · have h1 : k ≤ prescanAttrNameEnd data k := prescanAttrNameEnd_ge data k
    have h2 : prescanAttrNameEnd data k ≤
        skip_ascii_whitespace data (prescanAttrNameEnd data k) :=
      skip_ascii_whitespace_ge data _
    have h3 : skip_ascii_whitespace data (prescanAttrNameEnd data k) + 1 ≤
        skip_ascii_whitespace data
          (skip_ascii_whitespace data (prescanAttrNameEnd data k) + 1) :=
      skip_ascii_whitespace_ge data _
    have h4 : skip_ascii_whitespace data
          (skip_ascii_whitespace data (prescanAttrNameEnd data k) + 1) ≤
        prescanUnquotedEnd data
          (skip_ascii_whitespace data
            (skip_ascii_whitespace data (prescanAttrNameEnd data k) + 1)) :=
      prescanUnquotedEnd_ge data _
    omega
  · -- No '=' after the name: the name must be nonempty (a leading '=' would
    -- have been caught by `hv`), so the scan advanced.
    by_cases hcase : byteAt data k = 0x3D
    · exfalso
      have hname : prescanAttrNameEnd data k = k := by
        unfold prescanAttrNameEnd
        rw [dif_neg]
        intro hc
        exact hc.2 (by simp [hcase])
      have hskip : skip_ascii_whitespace data (prescanAttrNameEnd data k) = k := by
        rw [hname]
        exact skip_ascii_whitespace_stop data k (by rw [hcase]; decide)
      refine hv ⟨?_, ?_⟩
      · show skip_ascii_whitespace data (prescanAttrNameEnd data k) < data.length
        rw [hskip]; exact h.1
      · show byteAt data (skip_ascii_whitespace data (prescanAttrNameEnd data k)) = 0x3D
        rw [hskip]; exact hcase
    · have h1 : k + 1 ≤ prescanAttrNameEnd data k := by
        apply prescanAttrNameEnd_succ data k h.1
        intro hcon
        rcases hcon with hw | heq | hg | hs | hl
        · exact hws (Or.inl hw)
        · exact hcase heq
        · exact hgt hg
        · exact hws (Or.inr hs)
        · exact hlt hl
      have h2 : prescanAttrNameEnd data k ≤
          skip_ascii_whitespace data (prescanAttrNameEnd data k) :=
        skip_ascii_whitespace_ge data _
      omega

theorem prescanMetaAttrs_k_ge (data : List Nat) (k0 : Nat)
    (cs0 he0 ct0 : Option (List Nat)) :
    k0 ≤ (prescanMetaAttrs data k0 cs0 he0 ct0).k := by
  refine prescanMetaAttrs.induct data
    (fun k cs he ct => k ≤ (prescanMetaAttrs data k cs he ct).k)
    ?_ ?_ ?_ ?_ ?_ ?_ ?_ ?_ ?_ k0 cs0 he0 ct0
  · intro k cs he ct h hgt
    unfold prescanMetaAttrs
    rw [dif_pos h, dif_pos hgt]
    exact Nat.le_succ k
  · intro k cs he ct h hgt hlt
    unfold prescanMetaAttrs
    rw [dif_pos h, dif_neg hgt, dif_pos hlt]
  · intro k cs he ct h hgt hlt hws ih
    unfold prescanMetaAttrs
    rw [dif_pos h, dif_neg hgt, dif_neg hlt, dif_pos hws]
    omega
  · intro k cs he ct h hgt hlt hws
    dsimp only
    intro hv hn
    unfold prescanMetaAttrs
    rw [dif_pos h, dif_neg hgt, dif_neg hlt, dif_neg hws]
    dsimp only
    rw [dif_pos hv, dif_pos hn]
    dsimp only
    have h1 : k ≤ prescanAttrNameEnd data k := prescanAttrNameEnd_ge data k
    have h2 := skip_ascii_whitespace_ge data (prescanAttrNameEnd data k)
    have h3 := skip_ascii_whitespace_ge data
      (skip_ascii_whitespace data (prescanAttrNameEnd data k) + 1)
    omega
  · intro k cs he ct h hgt hlt hws
    dsimp only
    intro hv hn hqc hq
    unfold prescanMetaAttrs
    rw [dif_pos h, dif_neg hgt, dif_neg hlt, dif_neg hws]
    dsimp only
    rw [dif_pos hv, dif_neg hn, if_pos hqc]
    split
    · dsimp only
      have h1 : k ≤ prescanAttrNameEnd data k := prescanAttrNameEnd_ge data k
      have h2 := skip_ascii_whitespace_ge data (prescanAttrNameEnd data k)
      have h3 := skip_ascii_whitespace_ge data
        (skip_ascii_whitespace data (prescanAttrNameEnd data k) + 1)
      omega
    · rename_i endq heq
      rw [hq] at heq
      exact Option.noConfusion heq
  · intro k cs he ct h hgt hlt hws
    dsimp only
    intro hv hn hqc endq hq ih
    unfold prescanMetaAttrs
    rw [dif_pos h, dif_neg hgt, dif_neg hlt, dif_neg hws]
    dsimp only
    rw [dif_pos hv, dif_neg hn, if_pos hqc]
    split
    · rename_i heq
      rw [hq] at heq
      exact Option.noConfusion heq
    · rename_i endq2 heq
      rw [hq] at heq
      injection heq with h5
      subst h5
      have h1 : k ≤ prescanAttrNameEnd data k := prescanAttrNameEnd_ge data k
      have h2 := skip_ascii_whitespace_ge data (prescanAttrNameEnd data k)
      have h3 := skip_ascii_whitespace_ge data
        (skip_ascii_whitespace data (prescanAttrNameEnd data k) + 1)
      have h4 := bytesFindByteFrom_ge data _ _ _ hq
      omega
  · intro k cs he ct h hgt hlt hws
    dsimp only
    intro hv hn hqc ih
    unfold prescanMetaAttrs
    rw [dif_pos h, dif_neg hgt, dif_neg hlt, dif_neg hws]
    dsimp only
    rw [dif_pos hv, dif_neg hn, if_neg hqc]
    have h1 : k ≤ prescanAttrNameEnd data k := prescanAttrNameEnd_ge data k
    have h2 := skip_ascii_whitespace_ge data (prescanAttrNameEnd data k)
    have h3 := skip_ascii_whitespace_ge data
      (skip_ascii_whitespace data (prescanAttrNameEnd data k) + 1)
    have h4 := prescanUnquotedEnd_ge data
      (skip_ascii_whitespace data
        (skip_ascii_whitespace data (prescanAttrNameEnd data k) + 1))
    omega
  · intro k cs he ct h hgt hlt hws
    dsimp only
    intro hv ih
    unfold prescanMetaAttrs
    rw [dif_pos h, dif_neg hgt, dif_neg hlt, dif_neg hws]
    dsimp only
    rw [dif_neg hv]
    have h1 : k ≤ prescanAttrNameEnd data k := prescanAttrNameEnd_ge data k
    have h2 := skip_ascii_whitespace_ge data (prescanAttrNameEnd data k)
    omega
  · intro k cs he ct h
    unfold prescanMetaAttrs
    rw [dif_neg h]

theorem prescanTagNameEnd_succ (data : List Nat) (j : Nat)
    (h : j < data.length ∧ is_ascii_alpha (byteAt data j) = true) :
    j + 1 ≤ prescanTagNameEnd data j := by
  unfold prescanTagNameEnd
  rw [dif_pos h]
  exact prescanTagNameEnd_ge data (j + 1)

/-- `b"content-type"` as a byte list. -/
def contentTypeBytes : List Nat :=
  [0x63, 0x6F, 0x6E, 0x74, 0x65, 0x6E, 0x74, 0x2D, 0x74, 0x79, 0x70, 0x65]

/-- The `charset=` branch of a successfully closed `<meta>` tag
(lines 323-326 of encoding.py): a non-empty charset value is normalized. -/
def metaCharsetResult (m : MetaScan) : Option String :=
  match m.charset with
  | some csv =>
    if csv ≠ [] then
      normalize_meta_declared_encoding (some (bytesToAsciiIgnore csv))
    else none
  | none => none

/-- The `http-equiv="content-type"` branch of a successfully closed `<meta>`
tag (lines 328-333 of encoding.py). -/
def metaContentResult (m : MetaScan) : Option String :=
  match m.httpEquiv, m.content with
  | some hev, some c =>
    if hev ≠ [] ∧ bytesLower hev = contentTypeBytes ∧ c ≠ [] then
      match extract_charset_from_content c with
      | some ext =>
        if ext ≠ [] then
          normalize_meta_declared_encoding (some (bytesToAsciiIgnore ext))
        else none
      | none => none
    else none
  | _, _ => none

/-- The main loop of `_prescan_for_meta_charset` (lines 181-344 of
encoding.py), with loop variables `i` (scan position) and `nc`
(`non_comment` byte budget). -/
def prescanLoop (data : List Nat) (i nc : Nat) : Option String :=
  if h : i < data.length ∧ i < 65536 ∧ nc < 1024 then
    if hne : ¬ byteAt data i = 0x3C then prescanLoop data (i + 1) (nc + 1)
    else if hcm : i + 3 < data.length ∧
        bytesSlice data (i + 1) (i + 4) = [0x21, 0x2D, 0x2D] then
      match hfe : bytesFindSubFrom data [0x2D, 0x2D, 0x3E] (i + 4) with
      | none => none
      | some e => prescanLoop data (e + 3) nc
    else if hsl : i + 1 < data.length ∧ byteAt data (i + 1) = 0x2F then
      let r := prescanSkipTag data i nc none
      prescanLoop data r.1 r.2
    else if hal : i + 1 < data.length ∧ is_ascii_alpha (byteAt data (i + 1)) then
      let j := prescanTagNameEnd data (i + 1)
      if hmt : ¬ bytesLower (bytesSlice data (i + 1) j) = [0x6D, 0x65, 0x74, 0x61] then
        let r := prescanSkipTag data i nc none
        prescanLoop data r.1 r.2
      else
        let m := prescanMetaAttrs data j none none none
        if m.sawGt then
          match metaCharsetResult m with
          | some enc => some enc
          | none =>
            match metaContentResult m with
            | some enc => some enc
            | none => prescanLoop data m.k (nc + (m.k - i))
        else
          prescanLoop data (i + 1 + (if m.unclosedQuote then 1 else 0))
            (nc + 1 + (if m.unclosedQuote then 1 else 0))
    else prescanLoop data (i + 1) (nc + 1)
  else none
termination_by data.length - i
decreasing_by
  · omega
  · have h1 := bytesFindSubFrom_ge data [0x2D, 0x2D, 0x3E] (i + 4) e hfe
    omega
  · have h1 := prescanSkipTag_gt data i nc none ⟨h.1, h.2.1, h.2.2⟩
    omega
  · have h1 := prescanSkipTag_gt data i nc none ⟨h.1, h.2.1, h.2.2⟩
    omega
  · have h1 : i + 2 ≤ prescanTagNameEnd data (i + 1) :=
      prescanTagNameEnd_succ data (i + 1) hal
    have h2 := prescanMetaAttrs_k_ge data (prescanTagNameEnd data (i + 1))
      none none none
    omega
  · omega
  · omega

/-- `_prescan_for_meta_charset(data)` from encoding.py. -/
def prescan_for_meta_charset (data : List Nat) : Option String :=
  prescanLoop data 0 0

/-- `sniff_html_encoding(data, transport_encoding)` from encoding.py. -/
def sniff_html_encoding (data : List Nat) (transport_encoding : Option String) :
    String × Nat :=
  match normalize_encoding_label transport_encoding with
  | some transport => (transport, 0)
  | none =>
    match sniff_bom data with
    | (some bom_enc, bom_len) => (bom_enc, bom_len)
    | (none, _) =>
      match prescan_for_meta_charset data with
      | some meta_enc => (meta_enc, 0)
      | none => ("windows-1252", 0)

/-- C4: for every byte input and optional transport label,
`sniff_html_encoding` chooses the encoding with this precedence: a
transport label that survives normalization wins unconditionally (with
skip 0); otherwise a leading BOM selects utf-8 / utf-16le / utf-16be and
the returned skip count equals the byte length of the BOM actually present
at the head of the input; otherwise the bounded meta-charset prescan
result is used (with skip 0); otherwise windows-1252 with skip 0. -/
theorem sniff_html_encoding_precedence (data : List Nat)
    (te : Option String) :
    (∀ t, normalize_encoding_label te = some t →
      sniff_html_encoding data te = (t, 0)) ∧
    (normalize_encoding_label te = none →
      ∀ e l, sniff_bom data = (some e, l) →
        sniff_html_encoding data te = (e, l) ∧
        ((e = "utf-8" ∧ l = 3 ∧ data.take 3 = [0xEF, 0xBB, 0xBF]) ∨
         (e = "utf-16le" ∧ l = 2 ∧ data.take 2 = [0xFF, 0xFE]) ∨
         (e = "utf-16be" ∧ l = 2 ∧ data.take 2 = [0xFE, 0xFF]))) ∧
    (normalize_encoding_label te = none → (sniff_bom data).1 = none →
      ∀ m, prescan_for_meta_charset data = some m →
        sniff_html_encoding data te = (m, 0)) ∧
    (normalize_encoding_label te = none → (sniff_bom data).1 = none →
      prescan_for_meta_charset data = none →
      sniff_html_encoding data te = ("windows-1252", 0)) := by
  refine ⟨?_, ?_, ?_, ?_⟩
  · intro t ht
    simp only [sniff_html_encoding, ht]
  · intro hn e l hb
    constructor
    · simp only [sniff_html_encoding, hn, hb]
    · unfold sniff_bom at hb
      split_ifs at hb with h1 h2 h3
      · cases hb
        exact Or.inl ⟨rfl, rfl, h1.2⟩
      · cases hb
        exact Or.inr (Or.inl ⟨rfl, rfl, h2.2⟩)
      · cases hb
        exact Or.inr (Or.inr ⟨rfl, rfl, h3.2⟩)
      · cases hb
  · intro hn hb m hm
    rcases hsb : sniff_bom data with ⟨o, l2⟩
    rw [hsb] at hb
    dsimp only at hb
    subst hb
    simp only [sniff_html_encoding, hn, hsb, hm]
  · intro hn hb hm
    rcases hsb : sniff_bom data with ⟨o, l2⟩
    rw [hsb] at hb
    dsimp only at hb
    subst hb
    simp only [sniff_html_encoding, hn, hsb, hm]

/-- Witness for `sniff_html_encoding_precedence`: on input starting with the
UTF-8 BOM and no transport label, the sniffer returns utf-8 with skip 3. -/
theorem sniff_html_encoding_precedence_witness :
    sniff_html_encoding [0xEF, 0xBB, 0xBF, 0x61] none = ("utf-8", 3) :=
  ((sniff_html_encoding_precedence [0xEF, 0xBB, 0xBF, 0x61] none).2.1
    (by decide) "utf-8" 3 (by decide)).1

/-! ## Doctype handling (`src/justhtml/treebuilder_utils.py`) -/

/-- Doctype token payload, from `tokens.py` (`Doctype`): name, public
identifier and system identifier (each optional) plus a force-quirks flag. -/
structure Doctype where
  name : Option String
  public_id : Option String
  system_id : Option String
  force_quirks : Bool
  deriving Repr, DecidableEq

/-- `contains_prefix(haystack, needle)` from treebuilder_utils.py:
whether `needle` starts with any prefix in `haystack`. -/
def contains_pref (haystack : List String) (needle : String) : Bool :=
  haystack.any (fun p => needle.startsWith p)

/-- Python `x.lower() if x else None` on an optional string: an absent or
empty value gives `None`, anything else is lowercased. -/
def optLowerTruthy (v : Option String) : Option String :=
  match v with
  | none => none
  | some s => if s = "" then none else some (pyLower s)

/-- Modelled from the spec: the five doctype classification tables
(`QUIRKY_PUBLIC_MATCHES`, `QUIRKY_SYSTEM_MATCHES`, `QUIRKY_PUBLIC_PREFIXES`,
`LIMITED_QUIRKY_PUBLIC_PREFIXES`, `HTML4_PUBLIC_PREFIXES`) live in
`constants.py`, which is not among the provided sources.  The spec only says
quirks selection consults public/system identifier match and prefix tables,
so the tables are kept abstract and every theorem below holds for all
possible table contents. -/
structure QuirksTables where
  quirkyPublicMatches : List String
  quirkySystemMatches : List String
  quirkyPublicPrefixList : List String
  limitedQuirkyPublicPrefixList : List String
  html4PublicPrefixList : List String
  deriving Repr, DecidableEq

/-- The `acceptable` doctype list inlined in `doctype_error_and_quirks`
(treebuilder_utils.py lines 56-65). -/
def acceptableDoctypes : List (Option String × Option String × Option String) :=
  [(some "html", none, none),
   (some "html", none, some "about:legacy-compat"),
   (some "html", some "-//W3C//DTD HTML 4.0//EN", none),
   (some "html", some "-//W3C//DTD HTML 4.0//EN",
     some "http://www.w3.org/TR/REC-html40/strict.dtd"),
   (some "html", some "-//W3C//DTD HTML 4.01//EN", none),
   (some "html", some "-//W3C//DTD HTML 4.01//EN",
     some "http://www.w3.org/TR/html4/strict.dtd"),
   (some "html", some "-//W3C//DTD XHTML 1.0 Strict//EN",
     some "http://www.w3.org/TR/xhtml1/DTD/xhtml1-strict.dtd"),
   (some "html", some "-//W3C//DTD XHTML 1.1//EN",
     some "http://www.w3.org/TR/xhtml11/DTD/xhtml11.dtd")]

/-- `doctype_error_and_quirks(doctype, iframe_srcdoc)` from
treebuilder_utils.py, parameterized by the classification tables.
Returns `(parse_error, quirks_mode)`. -/
def doctype_error_and_quirks (tables : QuirksTables) (doctype : Doctype)
    (iframe_srcdoc : Bool) : Bool × String :=
  let name := optLowerTruthy doctype.name
  let public_id := doctype.public_id
  let system_id := doctype.system_id
  let key := (name, public_id, system_id)
  let parse_error : Bool := decide (key ∉ acceptableDoctypes)
  let public_lower := optLowerTruthy public_id
  let system_lower := optLowerTruthy system_id
  let quirks_mode : String :=
    if doctype.force_quirks then "quirks"
    else if iframe_srcdoc then "no-quirks"
    else if name ≠ some "html" then "quirks"
    else if (match public_lower with
             | some p => decide (p ∈ tables.quirkyPublicMatches)
             | none => false) then "quirks"
    else if (match system_lower with
             | some s => decide (s ∈ tables.quirkySystemMatches)
             | none => false) then "quirks"
    else if (match public_lower with
             | some p => contains_pref tables.quirkyPublicPrefixList p
             | none => false) then "quirks"
    else if (match public_lower with
             | some p => contains_pref tables.limitedQuirkyPublicPrefixList p
             | none => false) then "limited-quirks"
    else if (match public_lower with
             | some p => contains_pref tables.html4PublicPrefixList p
             | none => false) then
      if system_lower = none then "quirks" else "limited-quirks"
    else "no-quirks"
  (parse_error, quirks_mode)

/-- C8 counterexample: the claim says quirks mode is not forced whenever the
iframe-srcdoc flag is set, but `doctype_error_and_quirks` checks
`force_quirks` *before* the srcdoc exception, so a doctype named `html` with
its force-quirks flag set still yields `"quirks"` even under srcdoc
(regardless of the classification tables; shown here for empty tables). -/
theorem doctype_srcdoc_counterexample :
    (doctype_error_and_quirks ⟨[], [], [], [], []⟩
      ⟨some "html", none, none, true⟩ true).2 = "quirks" := by
  decide

/-- C8 (amended): `doctype_error_and_quirks` forces quirks mode whenever the
doctype's force-quirks flag is set (even under iframe srcdoc); otherwise,
when iframe srcdoc is set, quirks mode is never forced; otherwise a
(lowercased, empty-to-absent) name different from `html` forces quirks mode.
Holds for every content of the classification tables. -/
theorem doctype_error_and_quirks_modes (tables : QuirksTables)
    (d : Doctype) (iframe_srcdoc : Bool) :
    (d.force_quirks = true →
      (doctype_error_and_quirks tables d iframe_srcdoc).2 = "quirks") ∧
    (d.force_quirks = false → iframe_srcdoc = true →
      (doctype_error_and_quirks tables d iframe_srcdoc).2 = "no-quirks") ∧
    (d.force_quirks = false → iframe_srcdoc = false →
      optLowerTruthy d.name ≠ some "html" →
      (doctype_error_and_quirks tables d iframe_srcdoc).2 = "quirks") := by
  refine ⟨?_, ?_, ?_⟩
  · intro hf
    simp only [doctype_error_and_quirks, hf, if_true]
  · intro hf hs
    simp only [doctype_error_and_quirks, hf, hs]
    rfl
  · intro hf hs hn
    simp only [doctype_error_and_quirks, hf, hs]
    rw [if_neg (by simp), if_neg (by simp), if_pos hn]

/-- Witness for `doctype_error_and_quirks_modes`: a doctype named `svg`
without force-quirks and without srcdoc is classified as quirks mode. -/
theorem doctype_error_and_quirks_modes_witness :
    (doctype_error_and_quirks ⟨[], [], [], [], []⟩
      ⟨some "svg", none, none, false⟩ false).2 = "quirks" :=
  (doctype_error_and_quirks_modes ⟨[], [], [], [], []⟩
    ⟨some "svg", none, none, false⟩ false).2.2 rfl rfl (by decide)

/-! ## Start-tag serialization (`src/justhtml/serialize.py`) -/

/-- `_choose_attr_quote(value)` from serialize.py. -/
def choose_attr_quote (value : Option String) : String :=
  match value with
  | none => "\""
  | some v => if v.contains '"' ∧ ¬ v.contains '\'' then "'" else "\""

/-- `_escape_attr_value(value, quote_char)` from serialize.py. -/
def escape_attr_value (value : Option String) (quote_char : String) : String :=
  match value with
  | none => ""
  | some v =>
    let v := v.replace "&" "&amp;"
    if quote_char = "\"" then v.replace "\"" "&quot;"
    else v.replace "'" "&#39;"

/-- `_can_unquote_attr_value(value)` from serialize.py. -/
def can_unquote_attr_value (value : Option String) : Bool :=
  match value with
  | none => false
  | some v =>
    v.toList.all (fun ch =>
      ¬(ch = '>' ∨ ch = '"' ∨ ch = '\'' ∨ ch = '=' ∨
        ch = ' ' ∨ ch = '\t' ∨ ch = '\n' ∨ ch = '\x0c' ∨ ch = '\r'))

/-- The per-attribute fragment appended by the loop body of
`serialize_start_tag` (serialize.py lines 59-69): a `None` or empty value
renders as a bare `SP name`, otherwise `SP name = value`, unquoted when
possible, else quoted and escaped. -/
def serializeAttrPart (key : String) (value : Option String) : String :=
  match value with
  | none => " " ++ key
  | some v =>
    if v = "" then " " ++ key
    else if can_unquote_attr_value (some v) then
      " " ++ key ++ "=" ++ (v.replace "&" "&amp;")
    else
      let quote := choose_attr_quote (some v)
      " " ++ key ++ "=" ++ quote ++ escape_attr_value (some v) quote ++ quote

/-- `serialize_start_tag(name, attrs)` from serialize.py, with the
insertion-ordered attribute dict modelled as an association list
(a `None` dict collapses to the empty list via `attrs or {}`). -/
def serialize_start_tag (name : String)
    (attrs : List (String × Option String)) : String :=
  "<" ++ name ++
    String.join (attrs.map (fun kv => serializeAttrPart kv.1 kv.2)) ++ ">"

/-- C10: `serialize_start_tag` renders an attribute whose value is `None` or
the empty string as a bare attribute name — a single space and the name,
with no `=`, no value and no quotes — while an attribute with a non-empty
value is rendered as the name followed by `=` and a value; the whole tag is
`<`, the name, the attribute fragments in order, and `>`. -/
theorem serialize_start_tag_bare_attrs (name : String)
    (attrs : List (String × Option String)) (k : String) (v : Option String) :
    serialize_start_tag name attrs =
      "<" ++ name ++
        String.join (attrs.map (fun kv => serializeAttrPart kv.1 kv.2)) ++ ">" ∧
    (v = none ∨ v = some "" → serializeAttrPart k v = " " ++ k) ∧
    (∀ s, v = some s → s ≠ "" →
      ∃ rest, serializeAttrPart k v = " " ++ k ++ "=" ++ rest) := by
  refine ⟨rfl, ?_, ?_⟩
  · rintro (rfl | rfl)
    · rfl
    · rfl
  · intro s hv hs
    subst hv
    simp only [serializeAttrPart]
    rw [if_neg hs]
    by_cases hc : can_unquote_attr_value (some s)
    · rw [if_pos hc]
      exact ⟨_, rfl⟩
    · rw [if_neg hc]
      exact ⟨choose_attr_quote (some s) ++
        (escape_attr_value (some s) (choose_attr_quote (some s)) ++
          choose_attr_quote (some s)), by simp only [String.append_assoc]⟩

/-- Witness for `serialize_start_tag_bare_attrs`: an attribute with empty
value renders bare, one with a non-empty value renders with `=`. -/
theorem serialize_start_tag_bare_attrs_witness :
    serializeAttrPart "disabled" (some "") = " disabled" ∧
    ∃ rest, serializeAttrPart "id" (some "x") = " " ++ "id" ++ "=" ++ rest :=
  ⟨(serialize_start_tag_bare_attrs "a" [] "disabled" (some "")).2.1
      (Or.inr rfl),
   (serialize_start_tag_bare_attrs "a" [] "id" (some "x")).2.2 "x" rfl
      (by decide)⟩

/-! ## Attribute finalization (`src/justhtml/tokenizer.py`,
`Tokenizer._finish_attribute`)

Attribute names are ASCII-lowercased earlier, in the attribute-name states;
`_finish_attribute` receives the joined name/value buffers.  The
insertion-ordered `current_tag_attrs` dict is modelled as an association
list: `name in attrs` is `lookup` success and `attrs[name] = value` for a
fresh key appends.  `decode_entities_in_text(value, in_attribute=True)`
(entities.py) is kept abstract as a parameter `decodeAttr`, since the claim
is about duplicate handling, not entity decoding. -/

/-- `Tokenizer._finish_attribute` (tokenizer.py lines 1707-1734) acting on
the attribute dict and error list: an empty name buffer is a no-op; a name
already present emits `duplicate-attribute` and discards the value; a fresh
name stores the (possibly entity-decoded) value. -/
def finish_attribute (decodeAttr : String → String)
    (nameBuf valueBuf : String) (hasAmp : Bool)
    (attrs : List (String × String)) (errors : List String) :
    List (String × String) × List String :=
  if nameBuf = "" then (attrs, errors)
  else if (attrs.lookup nameBuf).isSome then
    (attrs, errors ++ ["duplicate-attribute"])
  else
    let value := if hasAmp then decodeAttr valueBuf else valueBuf
    (attrs ++ [(nameBuf, value)], errors)

/-- A tag's sequence of finished attributes: each event is
`(name buffer, value buffer, has_amp)` at the time `_finish_attribute`
fires; the dict and error list start empty for each tag. -/
def processAttrEvents (decodeAttr : String → String)
    (events : List (String × String × Bool)) :
    List (String × String) × List String :=
  events.foldl
    (fun acc e => finish_attribute decodeAttr e.1 e.2.1 e.2.2 acc.1 acc.2)
    ([], [])

/-- Specification side of C7 (first-wins attribute map): keep the first
occurrence of each non-empty name, with its value decoded when flagged. -/
def specFirstWinsAttrs (decodeAttr : String → String) (seen : List String) :
    List (String × String × Bool) → List (String × String)
  | [] => []
  | e :: rest =>
    if e.1 = "" ∨ e.1 ∈ seen then specFirstWinsAttrs decodeAttr seen rest
    else (e.1, if e.2.2 then decodeAttr e.2.1 else e.2.1) ::
      specFirstWinsAttrs decodeAttr (e.1 :: seen) rest

/-- Specification side of C7 (error count): one error per event whose
non-empty name was already seen. -/
def specDuplicateCount (seen : List String) :
    List (String × String × Bool) → Nat
  | [] => 0
  | e :: rest =>
    if e.1 = "" then specDuplicateCount seen rest
    else if e.1 ∈ seen then 1 + specDuplicateCount seen rest
    else specDuplicateCount (e.1 :: seen) rest

theorem specFirstWinsAttrs_congr (decodeAttr : String → String)
    (events : List (String × String × Bool)) :
    ∀ seen1 seen2, (∀ x, x ∈ seen1 ↔ x ∈ seen2) →
      specFirstWinsAttrs decodeAttr seen1 events =
        specFirstWinsAttrs decodeAttr seen2 events := by
  induction events with
  | nil => intro _ _ _; rfl
  | cons e rest ih =>
    intro seen1 seen2 hiff
    have hcond : (e.1 = "" ∨ e.1 ∈ seen1) ↔ (e.1 = "" ∨ e.1 ∈ seen2) :=
      or_congr Iff.rfl (hiff e.1)
    unfold specFirstWinsAttrs
    by_cases h1 : e.1 = "" ∨ e.1 ∈ seen1
    · rw [if_pos h1, if_pos (hcond.1 h1)]
      exact ih seen1 seen2 hiff
    · rw [if_neg h1, if_neg (fun hc => h1 (hcond.2 hc))]
      congr 1
      exact ih (e.1 :: seen1) (e.1 :: seen2) (by
        intro x
        simp only [List.mem_cons]
        exact or_congr Iff.rfl (hiff x))

theorem specDuplicateCount_congr (events : List (String × String × Bool)) :
    ∀ seen1 seen2, (∀ x, x ∈ seen1 ↔ x ∈ seen2) →
      specDuplicateCount seen1 events = specDuplicateCount seen2 events := by
  induction events with
  | nil => intro _ _ _; rfl
  | cons e rest ih =>
    intro seen1 seen2 hiff
    unfold specDuplicateCount
    by_cases h0 : e.1 = ""
    · rw [if_pos h0, if_pos h0]
      exact ih seen1 seen2 hiff
    · rw [if_neg h0, if_neg h0]
      by_cases h1 : e.1 ∈ seen1
      · rw [if_pos h1, if_pos ((hiff e.1).1 h1)]
        rw [ih seen1 seen2 hiff]
      · rw [if_neg h1, if_neg (fun hc => h1 ((hiff e.1).2 hc))]
        exact ih (e.1 :: seen1) (e.1 :: seen2) (by
          intro x
          simp only [List.mem_cons]
          exact ⟨fun h => h.elim Or.inl (fun hx => Or.inr ((hiff x).1 hx)),
            fun h => h.elim Or.inl (fun hx => Or.inr ((hiff x).2 hx))⟩)

theorem lookup_isSome_iff_mem_fst (attrs : List (String × String))
    (k : String) : (attrs.lookup k).isSome = true ↔ k ∈ attrs.map Prod.fst := by
  induction attrs with
  | nil => simp [List.lookup]
  | cons a rest ih =>
    simp only [List.lookup, List.map_cons, List.mem_cons]
    by_cases h : k = a.1
    · subst h
      simp
    · have hbeq : (k == a.1) = false := by
        simpa using h
      simp only [hbeq, ih]
      constructor
      · exact Or.inr
      · rintro (hk | hk)
        · exact absurd hk h
        · exact hk

theorem specFirstWinsAttrs_cons (decodeAttr : String → String)
    (seen : List String) (e : String × String × Bool)
    (rest : List (String × String × Bool)) :
    specFirstWinsAttrs decodeAttr seen (e :: rest) =
      if e.1 = "" ∨ e.1 ∈ seen then specFirstWinsAttrs decodeAttr seen rest
      else (e.1, if e.2.2 then decodeAttr e.2.1 else e.2.1) ::
        specFirstWinsAttrs decodeAttr (e.1 :: seen) rest := rfl

theorem specDuplicateCount_cons (seen : List String)
    (e : String × String × Bool) (rest : List (String × String × Bool)) :
    specDuplicateCount seen (e :: rest) =
      if e.1 = "" then specDuplicateCount seen rest
      else if e.1 ∈ seen then 1 + specDuplicateCount seen rest
      else specDuplicateCount (e.1 :: seen) rest := rfl

theorem processAttrEvents_aux (decodeAttr : String → String)
    (events : List (String × String × Bool)) :
    ∀ (attrs : List (String × String)) (errors : List String),
      events.foldl
        (fun acc e => finish_attribute decodeAttr e.1 e.2.1 e.2.2 acc.1 acc.2)
        (attrs, errors) =
      (attrs ++ specFirstWinsAttrs decodeAttr (attrs.map Prod.fst) events,
       errors ++ List.replicate
         (specDuplicateCount (attrs.map Prod.fst) events)
         "duplicate-attribute") := by
  induction events with
  | nil =>
    intro attrs errors
    simp [specFirstWinsAttrs, specDuplicateCount]
  | cons e rest ih =>
    intro attrs errors
    rw [List.foldl_cons]
    by_cases h0 : e.1 = ""
    · have hstep : finish_attribute decodeAttr e.1 e.2.1 e.2.2 attrs errors =
          (attrs, errors) := by
        unfold finish_attribute
        rw [if_pos h0]
      rw [hstep, ih attrs errors]
      have hskip : (e.1 = "" ∨ e.1 ∈ attrs.map Prod.fst) := Or.inl h0
      rw [specFirstWinsAttrs_cons, if_pos hskip,
        specDuplicateCount_cons, if_pos h0]
    · by_cases h1 : (attrs.lookup e.1).isSome = true
      · have hmem : e.1 ∈ attrs.map Prod.fst :=
          (lookup_isSome_iff_mem_fst attrs e.1).1 h1
        have hstep : finish_attribute decodeAttr e.1 e.2.1 e.2.2 attrs errors =
            (attrs, errors ++ ["duplicate-attribute"]) := by
          unfold finish_attribute
          rw [if_neg h0, if_pos h1]
        rw [hstep, ih attrs (errors ++ ["duplicate-attribute"])]
        rw [specFirstWinsAttrs_cons, if_pos (Or.inr hmem),
          specDuplicateCount_cons, if_neg h0, if_pos hmem]
        rw [Nat.add_comm 1 (specDuplicateCount (attrs.map Prod.fst) rest),
          List.replicate_succ, List.append_assoc]
        rfl
      · have hmem : e.1 ∉ attrs.map Prod.fst := fun hc =>
          h1 ((lookup_isSome_iff_mem_fst attrs e.1).2 hc)
        have hstep : finish_attribute decodeAttr e.1 e.2.1 e.2.2 attrs errors =
            (attrs ++ [(e.1, if e.2.2 then decodeAttr e.2.1 else e.2.1)],
             errors) := by
          unfold finish_attribute
          rw [if_neg h0, if_neg h1]
        rw [hstep,
          ih (attrs ++ [(e.1, if e.2.2 then decodeAttr e.2.1 else e.2.1)]) errors]
        have hseen : ∀ x,
            x ∈ (attrs ++ [(e.1, if e.2.2 then decodeAttr e.2.1 else e.2.1)]).map
              Prod.fst ↔ x ∈ e.1 :: attrs.map Prod.fst := by
          intro x
          simp only [List.map_append, List.map_cons, List.map_nil,
            List.mem_append, List.mem_cons, List.mem_singleton,
            List.not_mem_nil, or_false]
          exact Or.comm
        rw [specFirstWinsAttrs_congr decodeAttr rest _ _ hseen,
          specDuplicateCount_congr rest _ _ hseen]
        rw [specFirstWinsAttrs_cons,
          if_neg (show ¬(e.1 = "" ∨ e.1 ∈ attrs.map Prod.fst) from
            fun hc => hc.elim h0 hmem),
          specDuplicateCount_cons, if_neg h0, if_neg hmem]
        rw [List.append_assoc]
        rfl

/-- C7: running `_finish_attribute` over any sequence of finished attribute
events (name buffer, value buffer, has-amp flag), starting from an empty
attribute dict and error list, yields exactly the first-wins attribute map
(each non-empty name keeps the value of its first occurrence, entity-decoded
when flagged) together with one `duplicate-attribute` error per event whose
non-empty name was already present — and no error for any non-duplicate.
Holds for every entity-decoding function. -/
theorem finish_attribute_duplicates (decodeAttr : String → String)
    (events : List (String × String × Bool)) :
    processAttrEvents decodeAttr events =
      (specFirstWinsAttrs decodeAttr [] events,
       List.replicate (specDuplicateCount [] events) "duplicate-attribute") := by
  unfold processAttrEvents
  rw [processAttrEvents_aux decodeAttr events [] []]
  simp

/-! ## RAWTEXT / RCDATA end-tag candidates (`src/justhtml/tokenizer.py`)

`_get_char` (lines 1616-1650) normalizes `\r` to `\n` and, via the
`ignore_lf` flag, swallows the `\n` of a `\r\n` pair.  `reconsume` is never
set on entry to the states modelled here (their predecessors consume their
character directly), so it is handled by the callers.  The accumulators are
the `current_tag_name` (lowercased) and `original_tag_name` (verbatim)
buffers; `current_tag_name` is cleared by the `..._less_than_sign` states,
`original_tag_name` is *not*. -/

/-- `Tokenizer._get_char` on the remaining input: returns the character
read (CR normalized to LF), the new `ignore_lf` flag, and the rest. -/
def getChar (il : Bool) : List Char → Option Char × Bool × List Char
  | [] => (none, il, [])
  | c :: rest =>
    if c = '\r' then (some '\n', true, rest)
    else if c = '\n' then
      if il then getChar false rest else (some '\n', false, rest)
    else (some c, false, rest)

theorem getChar_some_lt (il : Bool) (input : List Char)
    (c : Char) (il' : Bool) (rest : List Char)
    (h : getChar il input = (some c, il', rest)) :
    rest.length < input.length := by
  induction input generalizing il with
  | nil => simp [getChar] at h
  | cons a tail ih =>
    unfold getChar at h
    by_cases h1 : a = '\r'
    · rw [if_pos h1] at h
      cases h
      simp
    · rw [if_neg h1] at h
      by_cases h2 : a = '\n'
      · rw [if_pos h2] at h
        by_cases h3 : il
        · rw [if_pos h3] at h
          have := ih false h
          simpa using Nat.lt_succ_of_lt this
        · rw [if_neg h3] at h
          cases h
          simp
      · rw [if_neg h2] at h
        cases h
        simp

/-- The `"A" <= c <= "Z" or "a" <= c <= "z"` test used by the end-tag
candidate states. -/
def isAsciiLetterChar (c : Char) : Bool :=
  decide (('A' ≤ c ∧ c ≤ 'Z') ∨ ('a' ≤ c ∧ c ≤ 'z'))

/-- The whitespace tuple `(" ", "\t", "\n", "\r", "\f")` checked after a
matching candidate name (the `\r` entry is unreachable because `_get_char`
never returns it, but it is kept for fidelity). -/
def rawtextNameWhitespace : List Char := [' ', '\t', '\n', '\r', '\x0c']

/-- Result of processing one `</`-candidate in RAWTEXT or RCDATA:
an immediately emitted end tag (`>`), a switch to the attribute states with
an end-tag token under construction (whitespace), a switch to the
self-closing state (`/`), the candidate emitted as text at EOF, or the
candidate emitted as text with the terminating character reconsumed in the
raw state. -/
inductive RawTagOutcome where
  | emitEndTag (lower : String) (il : Bool) (rest : List Char)
  | beforeAttrs (lower : String) (il : Bool) (rest : List Char)
  | selfClosing (lower : String) (il : Bool) (rest : List Char)
  | asTextEOF (emitted : List Char)
  | asText (emitted : List Char) (reconsumed : Char) (il : Bool) (rest : List Char)
  deriving Repr, DecidableEq

/-- `Tokenizer._state_rawtext_end_tag_name` (tokenizer.py lines 2193-2244):
consume ASCII letters into the name buffers, then compare the lowercased
name against `rawtext_tag_name` (the sentinel) and dispatch on the
terminating character; on mismatch or EOF, emit `</` plus the
`original_tag_name` buffer as text. -/
def rawtextEndTagNameLoop (sentinel : Option String) (il : Bool)
    (input : List Char) (lowerAcc origAcc : List Char) : RawTagOutcome :=
  match h : getChar il input with
  | (some c, il', rest) =>
    if isAsciiLetterChar c then
      rawtextEndTagNameLoop sentinel il' rest
        (lowerAcc ++ [c.toLower]) (origAcc ++ [c])
    else
      if sentinel = some (String.mk lowerAcc) then
        if c = '>' then .emitEndTag (String.mk lowerAcc) il' rest
        else if c ∈ rawtextNameWhitespace then
          .beforeAttrs (String.mk lowerAcc) il' rest
        else if c = '/' then .selfClosing (String.mk lowerAcc) il' rest
        else .asText ('<' :: '/' :: origAcc) c il' rest
      else .asText ('<' :: '/' :: origAcc) c il' rest
  | (none, _, _) => .asTextEOF ('<' :: '/' :: origAcc)
termination_by input.length
decreasing_by
  exact getChar_some_lt il input c il' rest h

/-- `Tokenizer._state_rawtext_end_tag_open` (tokenizer.py lines 2181-2191):
a letter starts the candidate name (appending to the *uncleared*
`original_tag_name` buffer `origAcc0`); anything else emits `</` as text and
reconsumes (at EOF the following RAWTEXT step emits EOF). -/
def rawtextEndTagOpen (sentinel : Option String) (origAcc0 : List Char)
    (il : Bool) (input : List Char) : RawTagOutcome :=
  match getChar il input with
  | (some c, il', rest) =>
    if isAsciiLetterChar c then
      rawtextEndTagNameLoop sentinel il' rest [c.toLower] (origAcc0 ++ [c])
    else .asText ['<', '/'] c il' rest
  | (none, _, _) => .asTextEOF ['<', '/']

/-- `Tokenizer._state_rcdata_end_tag_name` (tokenizer.py lines 2060-2111);
same logic as the RAWTEXT variant, returning to RCDATA on mismatch. -/
def rcdataEndTagNameLoop (sentinel : Option String) (il : Bool)
    (input : List Char) (lowerAcc origAcc : List Char) : RawTagOutcome :=
  match h : getChar il input with
  | (some c, il', rest) =>
    if isAsciiLetterChar c then
      rcdataEndTagNameLoop sentinel il' rest
        (lowerAcc ++ [c.toLower]) (origAcc ++ [c])
    else
      if sentinel = some (String.mk lowerAcc) then
        if c = '>' then .emitEndTag (String.mk lowerAcc) il' rest
        else if c ∈ rawtextNameWhitespace then
          .beforeAttrs (String.mk lowerAcc) il' rest
        else if c = '/' then .selfClosing (String.mk lowerAcc) il' rest
        else .asText ('<' :: '/' :: origAcc) c il' rest
      else .asText ('<' :: '/' :: origAcc) c il' rest
  | (none, _, _) => .asTextEOF ('<' :: '/' :: origAcc)
termination_by input.length
decreasing_by
  exact getChar_some_lt il input c il' rest h

/-- `Tokenizer._state_rcdata_end_tag_open` (tokenizer.py lines 2048-2058). -/
def rcdataEndTagOpen (sentinel : Option String) (origAcc0 : List Char)
    (il : Bool) (input : List Char) : RawTagOutcome :=
  match getChar il input with
  | (some c, il', rest) =>
    if isAsciiLetterChar c then
      rcdataEndTagNameLoop sentinel il' rest [c.toLower] (origAcc0 ++ [c])
    else .asText ['<', '/'] c il' rest
  | (none, _, _) => .asTextEOF ['<', '/']

/-- What one candidate step guarantees, relative to the buffer contents
`lowerAcc` / `origAcc` at loop entry: end-tag outcomes occur only when the
sentinel equals the lowercased name (which extends `lowerAcc` by the
lowercased run of further letters), and text outcomes emit `</` plus the
`original_tag_name` buffer (the entry buffer extended verbatim by the
further letters), falling through exactly when the name mismatches or the
terminator is not `>`, whitespace or `/`. -/
def RawCandidateSpec (sentinel : Option String) (lowerAcc origAcc : List Char)
    (o : RawTagOutcome) : Prop :=
  match o with
  | .emitEndTag nm _ _ =>
    sentinel = some nm ∧ ∃ ext : List Char, ext.all isAsciiLetterChar ∧
      nm = String.mk (lowerAcc ++ ext.map Char.toLower)
  | .beforeAttrs nm _ _ =>
    sentinel = some nm ∧ ∃ ext : List Char, ext.all isAsciiLetterChar ∧
      nm = String.mk (lowerAcc ++ ext.map Char.toLower)
  | .selfClosing nm _ _ =>
    sentinel = some nm ∧ ∃ ext : List Char, ext.all isAsciiLetterChar ∧
      nm = String.mk (lowerAcc ++ ext.map Char.toLower)
  | .asTextEOF em =>
    ∃ ext : List Char, ext.all isAsciiLetterChar ∧
      em = '<' :: '/' :: (origAcc ++ ext)
  | .asText em c _ _ =>
    ∃ ext : List Char,
      (ext.all isAsciiLetterChar ∧ em = '<' :: '/' :: (origAcc ++ ext)) ∧
      (¬ sentinel = some (String.mk (lowerAcc ++ ext.map Char.toLower)) ∨
        (¬ c = '>' ∧ c ∉ rawtextNameWhitespace ∧ ¬ c = '/'))

theorem RawCandidateSpec_extend (sentinel : Option String)
    (lowerAcc origAcc : List Char) (c : Char) (o : RawTagOutcome)
    (hc : isAsciiLetterChar c = true)
    (h : RawCandidateSpec sentinel (lowerAcc ++ [c.toLower])
      (origAcc ++ [c]) o) :
    RawCandidateSpec sentinel lowerAcc origAcc o := by
  cases o with
  | emitEndTag nm il2 rest2 =>
    simp only [RawCandidateSpec] at h ⊢
    obtain ⟨hs, ext, hall, hnm⟩ := h
    refine ⟨hs, c :: ext, ?_, ?_⟩
    · simp [hall, hc]
    · rw [hnm]
      simp [List.append_assoc]
  | beforeAttrs nm il2 rest2 =>
    simp only [RawCandidateSpec] at h ⊢
    obtain ⟨hs, ext, hall, hnm⟩ := h
    refine ⟨hs, c :: ext, ?_, ?_⟩
    · simp [hall, hc]
    · rw [hnm]
      simp [List.append_assoc]
  | selfClosing nm il2 rest2 =>
    simp only [RawCandidateSpec] at h ⊢
    obtain ⟨hs, ext, hall, hnm⟩ := h
    refine ⟨hs, c :: ext, ?_, ?_⟩
    · simp [hall, hc]
    · rw [hnm]
      simp [List.append_assoc]
  | asTextEOF em =>
    simp only [RawCandidateSpec] at h ⊢
    obtain ⟨ext, hall, hem⟩ := h
    refine ⟨c :: ext, ?_, ?_⟩
    · simp [hall, hc]
    · rw [hem]
      simp [List.append_assoc]
  | asText em c2 il2 rest2 =>
    simp only [RawCandidateSpec] at h ⊢
    obtain ⟨ext, ⟨hall, hem⟩, hcond⟩ := h
    refine ⟨c :: ext, ⟨?_, ?_⟩, ?_⟩
    · simp [hall, hc]
    · rw [hem]
      simp [List.append_assoc]
    · rcases hcond with hmis | hterm
      · left
        intro hcontra
        rw [show lowerAcc ++ List.map Char.toLower (c :: ext) =
            lowerAcc ++ [c.toLower] ++ List.map Char.toLower ext from by
          simp] at hcontra
        exact hmis hcontra
      · exact Or.inr hterm

theorem rawtext_loop_spec (sentinel : Option String) :
    ∀ (il : Bool) (input lowerAcc origAcc : List Char),
      RawCandidateSpec sentinel lowerAcc origAcc
        (rawtextEndTagNameLoop sentinel il input lowerAcc origAcc) := by
  intro il0 input0 lowerAcc0 origAcc0
  refine rawtextEndTagNameLoop.induct sentinel
    (fun il input lowerAcc origAcc =>
      RawCandidateSpec sentinel lowerAcc origAcc
        (rawtextEndTagNameLoop sentinel il input lowerAcc origAcc))
    ?_ ?_ ?_ ?_ ?_ ?_ ?_ il0 input0 lowerAcc0 origAcc0
  · intro il input lowerAcc origAcc c il' rest hg hl ih
    rw [show rawtextEndTagNameLoop sentinel il input lowerAcc origAcc =
        rawtextEndTagNameLoop sentinel il' rest
          (lowerAcc ++ [c.toLower]) (origAcc ++ [c]) from by
      rw [rawtextEndTagNameLoop]
      split
      · rename_i c2 il2 rest2 heq
        rw [hg] at heq
        simp only [Prod.mk.injEq, Option.some.injEq] at heq
        obtain ⟨rfl, rfl, rfl⟩ := heq
        rw [if_pos hl]
      · rename_i il2 rest2 heq
        rw [hg] at heq
        simp at heq]
    exact RawCandidateSpec_extend sentinel lowerAcc origAcc c _ hl ih
  · intro il input lowerAcc origAcc il' rest hs hg hl
    rw [show rawtextEndTagNameLoop sentinel il input lowerAcc origAcc =
        .emitEndTag (String.mk lowerAcc) il' rest from by
      rw [rawtextEndTagNameLoop]
      split
      · rename_i c2 il2 rest2 heq
        rw [hg] at heq
        simp only [Prod.mk.injEq, Option.some.injEq] at heq
        obtain ⟨rfl, rfl, rfl⟩ := heq
        rw [if_neg hl, if_pos hs, if_pos rfl]
      · rename_i il2 rest2 heq
        rw [hg] at heq
        simp at heq]
    exact ⟨hs, [], by simp, by simp⟩
  · intro il input lowerAcc origAcc c il' rest hg hl hs hgt hws
    rw [show rawtextEndTagNameLoop sentinel il input lowerAcc origAcc =
        .beforeAttrs (String.mk lowerAcc) il' rest from by
      rw [rawtextEndTagNameLoop]
      split
      · rename_i c2 il2 rest2 heq
        rw [hg] at heq
        simp only [Prod.mk.injEq, Option.some.injEq] at heq
        obtain ⟨rfl, rfl, rfl⟩ := heq
        rw [if_neg hl, if_pos hs, if_neg hgt, if_pos hws]
      · rename_i il2 rest2 heq
        rw [hg] at heq
        simp at heq]
    exact ⟨hs, [], by simp, by simp⟩
  · intro il input lowerAcc origAcc il' rest hs hg hl hgt hws
    rw [show rawtextEndTagNameLoop sentinel il input lowerAcc origAcc =
        .selfClosing (String.mk lowerAcc) il' rest from by
      rw [rawtextEndTagNameLoop]
      split
      · rename_i c2 il2 rest2 heq
        rw [hg] at heq
        simp only [Prod.mk.injEq, Option.some.injEq] at heq
        obtain ⟨rfl, rfl, rfl⟩ := heq
        rw [if_neg hl, if_pos hs, if_neg hgt, if_neg hws, if_pos rfl]
      · rename_i il2 rest2 heq
        rw [hg] at heq
        simp at heq]
    exact ⟨hs, [], by simp, by simp⟩
  · intro il input lowerAcc origAcc c il' rest hg hl hs hgt hws hsl
    rw [show rawtextEndTagNameLoop sentinel il input lowerAcc origAcc =
        .asText ('<' :: '/' :: origAcc) c il' rest from by
      rw [rawtextEndTagNameLoop]
      split
      · rename_i c2 il2 rest2 heq
        rw [hg] at heq
        simp only [Prod.mk.injEq, Option.some.injEq] at heq
        obtain ⟨rfl, rfl, rfl⟩ := heq
        rw [if_neg hl, if_pos hs, if_neg hgt, if_neg hws, if_neg hsl]
      · rename_i il2 rest2 heq
        rw [hg] at heq
        simp at heq]
    exact ⟨[], ⟨by simp, by simp⟩, Or.inr ⟨hgt, hws, hsl⟩⟩
  · intro il input lowerAcc origAcc c il' rest hg hl hs
    rw [show rawtextEndTagNameLoop sentinel il input lowerAcc origAcc =
        .asText ('<' :: '/' :: origAcc) c il' rest from by
      rw [rawtextEndTagNameLoop]
      split
      · rename_i c2 il2 rest2 heq
        rw [hg] at heq
        simp only [Prod.mk.injEq, Option.some.injEq] at heq
        obtain ⟨rfl, rfl, rfl⟩ := heq
        rw [if_neg hl, if_neg hs]
      · rename_i il2 rest2 heq
        rw [hg] at heq
        simp at heq]
    exact ⟨[], ⟨by simp, by simp⟩, Or.inl (by simpa using hs)⟩
  · intro il input lowerAcc origAcc fst snd hg
    rw [show rawtextEndTagNameLoop sentinel il input lowerAcc origAcc =
        .asTextEOF ('<' :: '/' :: origAcc) from by
      rw [rawtextEndTagNameLoop]
      split
      · rename_i c2 il2 rest2 heq
        rw [hg] at heq
        simp at heq
      · rfl]
    exact ⟨[], by simp, by simp⟩

theorem rcdata_loop_spec (sentinel : Option String) :
    ∀ (il : Bool) (input lowerAcc origAcc : List Char),
      RawCandidateSpec sentinel lowerAcc origAcc
        (rcdataEndTagNameLoop sentinel il input lowerAcc origAcc) := by
  intro il0 input0 lowerAcc0 origAcc0
  refine rcdataEndTagNameLoop.induct sentinel
    (fun il input lowerAcc origAcc =>
      RawCandidateSpec sentinel lowerAcc origAcc
        (rcdataEndTagNameLoop sentinel il input lowerAcc origAcc))
    ?_ ?_ ?_ ?_ ?_ ?_ ?_ il0 input0 lowerAcc0 origAcc0
  · intro il input lowerAcc origAcc c il' rest hg hl ih
    rw [show rcdataEndTagNameLoop sentinel il input lowerAcc origAcc =
        rcdataEndTagNameLoop sentinel il' rest
          (lowerAcc ++ [c.toLower]) (origAcc ++ [c]) from by
      rw [rcdataEndTagNameLoop]
      split
      · rename_i c2 il2 rest2 heq
        rw [hg] at heq
        simp only [Prod.mk.injEq, Option.some.injEq] at heq
        obtain ⟨rfl, rfl, rfl⟩ := heq
        rw [if_pos hl]
      · rename_i il2 rest2 heq
        rw [hg] at heq
        simp at heq]
    exact RawCandidateSpec_extend sentinel lowerAcc origAcc c _ hl ih
  · intro il input lowerAcc origAcc il' rest hs hg hl
    rw [show rcdataEndTagNameLoop sentinel il input lowerAcc origAcc =
        .emitEndTag (String.mk lowerAcc) il' rest from by
      rw [rcdataEndTagNameLoop]
      split
      · rename_i c2 il2 rest2 heq
        rw [hg] at heq
        simp only [Prod.mk.injEq, Option.some.injEq] at heq
        obtain ⟨rfl, rfl, rfl⟩ := heq
        rw [if_neg hl, if_pos hs, if_pos rfl]
      · rename_i il2 rest2 heq
        rw [hg] at heq
        simp at heq]
    exact ⟨hs, [], by simp, by simp⟩
  · intro il input lowerAcc origAcc c il' rest hg hl hs hgt hws
    rw [show rcdataEndTagNameLoop sentinel il input lowerAcc origAcc =
        .beforeAttrs (String.mk lowerAcc) il' rest from by
      rw [rcdataEndTagNameLoop]
      split
      · rename_i c2 il2 rest2 heq
        rw [hg] at heq
        simp only [Prod.mk.injEq, Option.some.injEq] at heq
        obtain ⟨rfl, rfl, rfl⟩ := heq
        rw [if_neg hl, if_pos hs, if_neg hgt, if_pos hws]
      · rename_i il2 rest2 heq
        rw [hg] at heq
        simp at heq]
    exact ⟨hs, [], by simp, by simp⟩
  · intro il input lowerAcc origAcc il' rest hs hg hl hgt hws
    rw [show rcdataEndTagNameLoop sentinel il input lowerAcc origAcc =
        .selfClosing (String.mk lowerAcc) il' rest from by
      rw [rcdataEndTagNameLoop]
      split
      · rename_i c2 il2 rest2 heq
        rw [hg] at heq
        simp only [Prod.mk.injEq, Option.some.injEq] at heq
        obtain ⟨rfl, rfl, rfl⟩ := heq
        rw [if_neg hl, if_pos hs, if_neg hgt, if_neg hws, if_pos rfl]
      · rename_i il2 rest2 heq
        rw [hg] at heq
        simp at heq]
    exact ⟨hs, [], by simp, by simp⟩
  · intro il input lowerAcc origAcc c il' rest hg hl hs hgt hws hsl
    rw [show rcdataEndTagNameLoop sentinel il input lowerAcc origAcc =
        .asText ('<' :: '/' :: origAcc) c il' rest from by
      rw [rcdataEndTagNameLoop]
      split
      · rename_i c2 il2 rest2 heq
        rw [hg] at heq
        simp only [Prod.mk.injEq, Option.some.injEq] at heq
        obtain ⟨rfl, rfl, rfl⟩ := heq
        rw [if_neg hl, if_pos hs, if_neg hgt, if_neg hws, if_neg hsl]
      · rename_i il2 rest2 heq
        rw [hg] at heq
        simp at heq]
    exact ⟨[], ⟨by simp, by simp⟩, Or.inr ⟨hgt, hws, hsl⟩⟩
  · intro il input lowerAcc origAcc c il' rest hg hl hs
    rw [show rcdataEndTagNameLoop sentinel il input lowerAcc origAcc =
        .asText ('<' :: '/' :: origAcc) c il' rest from by
      rw [rcdataEndTagNameLoop]
      split
      · rename_i c2 il2 rest2 heq
        rw [hg] at heq
        simp only [Prod.mk.injEq, Option.some.injEq] at heq
        obtain ⟨rfl, rfl, rfl⟩ := heq
        rw [if_neg hl, if_neg hs]
      · rename_i il2 rest2 heq
        rw [hg] at heq
        simp at heq]
    exact ⟨[], ⟨by simp, by simp⟩, Or.inl (by simpa using hs)⟩
  · intro il input lowerAcc origAcc fst snd hg
    rw [show rcdataEndTagNameLoop sentinel il input lowerAcc origAcc =
        .asTextEOF ('<' :: '/' :: origAcc) from by
      rw [rcdataEndTagNameLoop]
      split
      · rename_i c2 il2 rest2 heq
        rw [hg] at heq
        simp at heq
      · rfl]
    exact ⟨[], by simp, by simp⟩

/-- The claim-level property of one `</`-candidate starting at the
`..._end_tag_open` state with leftover buffer `origAcc0`. -/
def RawOpenSpec (sentinel : Option String) (origAcc0 : List Char)
    (o : RawTagOutcome) : Prop :=
  match o with
  | .emitEndTag nm _ _ =>
    sentinel = some nm ∧ ∃ letters : List Char, letters ≠ [] ∧
      letters.all isAsciiLetterChar ∧ nm = String.mk (letters.map Char.toLower)
  | .beforeAttrs nm _ _ =>
    sentinel = some nm ∧ ∃ letters : List Char, letters ≠ [] ∧
      letters.all isAsciiLetterChar ∧ nm = String.mk (letters.map Char.toLower)
  | .selfClosing nm _ _ =>
    sentinel = some nm ∧ ∃ letters : List Char, letters ≠ [] ∧
      letters.all isAsciiLetterChar ∧ nm = String.mk (letters.map Char.toLower)
  | .asTextEOF em =>
    em = ['<', '/'] ∨ ∃ letters : List Char, letters ≠ [] ∧
      letters.all isAsciiLetterChar ∧ em = '<' :: '/' :: (origAcc0 ++ letters)
  | .asText em c _ _ =>
    (em = ['<', '/'] ∧ ¬ isAsciiLetterChar c = true) ∨
      ∃ letters : List Char, letters ≠ [] ∧
        letters.all isAsciiLetterChar ∧
        em = '<' :: '/' :: (origAcc0 ++ letters) ∧
        (¬ sentinel = some (String.mk (letters.map Char.toLower)) ∨
          (¬ c = '>' ∧ c ∉ rawtextNameWhitespace ∧ ¬ c = '/'))

theorem RawOpenSpec_of_loop (sentinel : Option String) (origAcc0 : List Char)
    (c : Char) (hl : isAsciiLetterChar c = true) (o : RawTagOutcome)
    (h : RawCandidateSpec sentinel [c.toLower] (origAcc0 ++ [c]) o) :
    RawOpenSpec sentinel origAcc0 o := by
  cases o with
  | emitEndTag nm il2 rest2 =>
    simp only [RawCandidateSpec] at h
    simp only [RawOpenSpec]
    obtain ⟨hs, ext, hall, hnm⟩ := h
    exact ⟨hs, c :: ext, by simp, by simp [hall, hl], by simpa using hnm⟩
  | beforeAttrs nm il2 rest2 =>
    simp only [RawCandidateSpec] at h
    simp only [RawOpenSpec]
    obtain ⟨hs, ext, hall, hnm⟩ := h
    exact ⟨hs, c :: ext, by simp, by simp [hall, hl], by simpa using hnm⟩
  | selfClosing nm il2 rest2 =>
    simp only [RawCandidateSpec] at h
    simp only [RawOpenSpec]
    obtain ⟨hs, ext, hall, hnm⟩ := h
    exact ⟨hs, c :: ext, by simp, by simp [hall, hl], by simpa using hnm⟩
  | asTextEOF em =>
    simp only [RawCandidateSpec] at h
    simp only [RawOpenSpec]
    obtain ⟨ext, hall, hem⟩ := h
    exact Or.inr ⟨c :: ext, by simp, by simp [hall, hl],
      by rw [hem]; simp [List.append_assoc]⟩
  | asText em c2 il2 rest2 =>
    simp only [RawCandidateSpec] at h
    simp only [RawOpenSpec]
    obtain ⟨ext, ⟨hall, hem⟩, hcond⟩ := h
    refine Or.inr ⟨c :: ext, by simp, by simp [hall, hl],
      by rw [hem]; simp [List.append_assoc], ?_⟩
    rcases hcond with hmis | hterm
    · exact Or.inl (fun hcontra => hmis hcontra)
    · exact Or.inr hterm

theorem rawtext_open_spec (sentinel : Option String) (origAcc0 : List Char)
    (il : Bool) (input : List Char) :
    RawOpenSpec sentinel origAcc0
      (rawtextEndTagOpen sentinel origAcc0 il input) := by
  unfold rawtextEndTagOpen
  rcases hg : getChar il input with ⟨c?, il', rest⟩
  cases c? with
  | none =>
    simp [RawOpenSpec]
  | some c =>
    dsimp only
    by_cases hl : isAsciiLetterChar c = true
    · rw [if_pos hl]
      exact RawOpenSpec_of_loop sentinel origAcc0 c hl _
        (rawtext_loop_spec sentinel il' rest [c.toLower] (origAcc0 ++ [c]))
    · rw [if_neg hl]
      exact Or.inl ⟨rfl, hl⟩

theorem rcdata_open_spec (sentinel : Option String) (origAcc0 : List Char)
    (il : Bool) (input : List Char) :
    RawOpenSpec sentinel origAcc0
      (rcdataEndTagOpen sentinel origAcc0 il input) := by
  unfold rcdataEndTagOpen
  rcases hg : getChar il input with ⟨c?, il', rest⟩
  cases c? with
  | none =>
    simp [RawOpenSpec]
  | some c =>
    dsimp only
    by_cases hl : isAsciiLetterChar c = true
    · rw [if_pos hl]
      exact RawOpenSpec_of_loop sentinel origAcc0 c hl _
        (rcdata_loop_spec sentinel il' rest [c.toLower] (origAcc0 ++ [c]))
    · rw [if_neg hl]
      exact Or.inl ⟨rfl, hl⟩

/-- C6 counterexample: the `original_tag_name` buffer is not cleared on the
whitespace / `/` exits of the end-tag-name states (tokenizer.py lines
2080-2091 and 2213-2224), so a later mismatched candidate emits the stale
letters too.  Concretely: after `</title ...>` inside `<title>` leaves
`original_tag_name = "title"`, a RAWTEXT candidate `</bad>` under sentinel
`script` emits the text `</titlebad` — not `</bad`, the actually consumed
candidate characters — so the claim's "all consumed candidate characters
are emitted as character data" (and nothing else) fails. -/
theorem rawtext_stale_buffer_counterexample :
    rawtextEndTagOpen (some "script") ['t', 'i', 't', 'l', 'e'] false
        ['b', 'a', 'd', '>'] =
      .asText ['<', '/', 't', 'i', 't', 'l', 'e', 'b', 'a', 'd'] '>' false [] ∧
    (['<', '/', 't', 'i', 't', 'l', 'e', 'b', 'a', 'd'] : List Char) ≠
      '<' :: '/' :: ['b', 'a', 'd'] := by
  constructor
  · simp [rawtextEndTagOpen, rawtextEndTagNameLoop, getChar,
      isAsciiLetterChar, rawtextNameWhitespace]
  · decide

/-- C6 (amended): in RAWTEXT and RCDATA modes, a `</`-plus-ASCII-letters
candidate becomes an end-tag token only when its ASCII-lowercased letter run
equals the remembered sentinel tag name and the run is immediately followed
by `>` (emitted at once), whitespace (end-tag token construction continues
in the attribute states) or `/` (self-closing state); in every other case
the characters are emitted as character data with original case preserved —
namely `</` followed by the `original_tag_name` buffer, which is the
consumed letters *prefixed by any stale letters* left in the buffer by an
earlier candidate that exited through the whitespace or `/` paths (the
buffer is cleared on the other exits; with an empty stale buffer the
emitted text is exactly `</` plus the consumed letters). -/
theorem rawtext_rcdata_end_tag_candidates (sentinel : Option String)
    (origAcc0 : List Char) (il : Bool) (input : List Char) :
    RawOpenSpec sentinel origAcc0
      (rawtextEndTagOpen sentinel origAcc0 il input) ∧
    RawOpenSpec sentinel origAcc0
      (rcdataEndTagOpen sentinel origAcc0 il input) :=
  ⟨rawtext_open_spec sentinel origAcc0 il input,
   rcdata_open_spec sentinel origAcc0 il input⟩

/-! ## Adoption agency (`src/justhtml/treebuilder_modes.py`,
`TreeBuilder._adoption_agency`, lines 566-708)

Nodes live in an arena and are referred to by `Nat` handles, as the spec's
design notes prescribe for a systems-language port; Python object identity
(`is`) becomes handle equality.  A node record carries the fields the
algorithm reads: name, namespace (`ns`; `namespace` is a Lean keyword),
parent and children links, attributes, whether the object is exactly a
`TemplateNode`, and its `template_content` handle. -/

structure ANode where
  name : String
  ns : Option String
  parent : Option Nat
  children : Option (List Nat)
  attrs : List (String × Option String)
  isTemplate : Bool
  templateContent : Option Nat
  deriving Repr, DecidableEq

/-- Reading an absent handle yields an inert node (no children list), so
that stray handles cannot fabricate structure. -/
def defaultANode : ANode :=
  ⟨"", none, none, none, [], false, none⟩

def getNode (ar : List ANode) (i : Nat) : ANode := ar.getD i defaultANode

def setNode (ar : List ANode) (i : Nat) (n : ANode) : List ANode := ar.set i n

/-- `SimpleDomNode.append_child` (node.py lines 191-194): append to the
child list when one exists and set the child's parent. -/
def append_child (ar : List ANode) (p c : Nat) : List ANode :=
  match (getNode ar p).children with
  | none => ar
  | some cs =>
    let ar1 := setNode ar p { getNode ar p with children := some (cs ++ [c]) }
    setNode ar1 c { getNode ar1 c with parent := some p }

/-- `SimpleDomNode.remove_child` (node.py lines 196-199): remove the first
occurrence from the child list (Python `list.remove` raises `ValueError`
when absent) and clear the child's parent. -/
def remove_child (ar : List ANode) (p c : Nat) : Except String (List ANode) :=
  match (getNode ar p).children with
  | none => .ok ar
  | some cs =>
    if c ∈ cs then
      let ar1 := setNode ar p { getNode ar p with children := some (cs.erase c) }
      .ok (setNode ar1 c { getNode ar1 c with parent := none })
    else .error "ValueError: list.remove(x): x not in list"

/-- `SimpleDomNode.insert_before` (node.py lines 260-283): `ValueError` when
this node cannot have children or the reference is not a child; a `None`
reference appends. -/
def insert_before (ar : List ANode) (p node : Nat) (ref : Option Nat) :
    Except String (List ANode) :=
  match (getNode ar p).children with
  | none => .error "ValueError: node cannot have children"
  | some cs =>
    match ref with
    | none => .ok (append_child ar p node)
    | some r =>
      match cs.indexOf? r with
      | none => .error "ValueError: reference node is not a child"
      | some idx =>
        let ar1 := setNode ar p
          { getNode ar p with children := some (cs.insertIdx idx node) }
        .ok (setNode ar1 node { getNode ar1 node with parent := some p })

/-- `TreeBuilder._create_element` (treebuilder.py lines 623-625): a fresh
`ElementNode` with namespace defaulted to html; in the arena the fresh
handle is the current length. -/
def create_element (ar : List ANode) (name : String) (ns : Option String)
    (attrs : List (String × Option String)) : List ANode × Nat :=
  (ar ++ [{ name := name, ns := some (ns.getD "html"), parent := none,
            children := some [], attrs := attrs, isTemplate := false,
            templateContent := none }], ar.length)

/-- Python `l[i]` with Python index semantics (negative indices count from
the end; out of range raises `IndexError`). -/
def pyGet (l : List Nat) (i : Int) : Except String Nat :=
  if 0 ≤ i ∧ i < l.length then .ok (l.getD i.toNat 0)
  else if -(l.length : Int) ≤ i ∧ i < 0 then
    .ok (l.getD (l.length - (-i).toNat) 0)
  else .error "IndexError"

/-- Python `l.index(x)`: first index, `ValueError` when absent. -/
def pyIndex (l : List Nat) (x : Nat) : Except String Nat :=
  match l.indexOf? x with
  | some i => .ok i
  | none => .error "ValueError: x not in list"

/-- Python `l.insert(i, x)`: negative indices count from the end and the
position is clamped into range. -/
def pyInsert {α : Type} (l : List α) (i : Int) (x : α) : List α :=
  let n : Int := l.length
  let j : Int := if i < 0 then max 0 (n + i) else min i n
  l.insertIdx j.toNat x

/-- Modelled from the spec: the name-set constants used by the adoption
agency's helpers (`SPECIAL_ELEMENTS`, `DEFAULT_SCOPE_TERMINATORS`,
`TABLE_FOSTER_TARGETS`, `TABLE_ALLOWED_CHILDREN`,
`HTML_INTEGRATION_POINT_SET`, `MATHML_TEXT_INTEGRATION_POINT_SET`) live in
`constants.py`, which is not among the provided sources; the spec describes
them only by role (§4.4.3, glossary).  They are kept abstract in a
configuration record, and the termination results below hold for every
possible contents. -/
structure TBConfig where
  special_elements : List String
  default_scope_terminators : List String
  table_foster_targets : List String
  table_allowed_children : List String
  html_integration_points : List (Option String × String)
  mathml_text_integration_points : List (Option String × String)
  deriving Repr, DecidableEq

/-- An active-formatting-list entry (`_append_active_formatting_entry`,
treebuilder.py lines 755-765); the adoption agency reads `name`, `attrs`
and `node` (the `signature` field is not consulted by it and is omitted).
A `none` in the list is the `FORMAT_MARKER` sentinel. -/
structure FormatEntry where
  name : String
  attrs : List (String × Option String)
  node : Nat
  deriving Repr, DecidableEq

/-- The tree-builder state touched by the adoption agency: the node arena,
the open-elements stack (index 0 = bottom, last = current node), the
active-formatting list, the `insert_from_table` flag consulted by
`_should_foster_parenting`, the `collect_errors` flag and the error list
(`_parse_error` records only the code here; source positions live in the
tokenizer and do not influence the algorithm). -/
structure TBState where
  arena : List ANode
  open_elements : List Nat
  active_formatting : List (Option FormatEntry)
  insert_from_table : Bool
  collect_errors : Bool
  errors : List String
  deriving Repr, DecidableEq

/-- `TreeBuilder._parse_error` (treebuilder.py lines 172-213), error code
only. -/
def tb_parse_error (s : TBState) (code : String) : TBState :=
  if s.collect_errors then { s with errors := s.errors ++ [code] } else s

/-- `TreeBuilder._lower_ascii` (treebuilder.py lines 936-937). -/
def lower_ascii (value : String) : String :=
  if value = "" then "" else pyLower value

/-- `TreeBuilder._node_attribute_value` (treebuilder.py lines 965-970). -/
def node_attribute_value (ar : List ANode) (id : Nat) (name : String) :
    Option String :=
  let target := lower_ascii name
  (getNode ar id).attrs.findSome? fun kv =>
    if lower_ascii kv.1 = target then some (kv.2.getD "") else none

/-- `TreeBuilder._is_html_integration_point` (treebuilder.py lines
972-982). -/
def is_html_integration_point (cfg : TBConfig) (ar : List ANode) (id : Nat) :
    Bool :=
  let nd := getNode ar id
  if nd.ns = some "math" ∧ nd.name = "annotation-xml" then
    match node_attribute_value ar id "encoding" with
    | some enc =>
      enc ≠ "" ∧ pyLower enc ∈ ["text/html", "application/xhtml+xml"]
    | none => false
  else (nd.ns, nd.name) ∈ cfg.html_integration_points

/-- `TreeBuilder._is_mathml_text_integration_point` (treebuilder.py lines
984-987). -/
def is_mathml_text_integration_point (cfg : TBConfig) (ar : List ANode)
    (id : Nat) : Bool :=
  let nd := getNode ar id
  if nd.ns ≠ some "math" then false
  else (nd.ns, nd.name) ∈ cfg.mathml_text_integration_points

/-- The stack walk of `TreeBuilder._has_element_in_scope` (treebuilder.py
lines 215-231), over the reversed open-elements stack (top first). -/
def scopeScan (cfg : TBConfig) (ar : List ANode) (target : String)
    (terminators : List String) (check_ip : Bool) : List Nat → Bool
  | [] => false
  | id :: rest =>
    let nd := getNode ar id
    if nd.name = target then true
    else if nd.ns = some "html" ∨ nd.ns = none then
      if nd.name ∈ terminators then false
      else scopeScan cfg ar target terminators check_ip rest
    else if check_ip ∧ (is_html_integration_point cfg ar id ∨
        is_mathml_text_integration_point cfg ar id) then false
    else scopeScan cfg ar target terminators check_ip rest

/-- `TreeBuilder._has_element_in_scope` with the default terminator set. -/
def has_element_in_scope (cfg : TBConfig) (ar : List ANode) (oe : List Nat)
    (target : String) : Bool :=
  scopeScan cfg ar target cfg.default_scope_terminators true oe.reverse

/-- `TreeBuilder._is_special_element` (treebuilder.py lines 684-687). -/
def is_special_element (cfg : TBConfig) (ar : List ANode) (id : Nat) : Bool :=
  let nd := getNode ar id
  if ¬(nd.ns = none ∨ nd.ns = some "html") then false
  else nd.name ∈ cfg.special_elements

/-- `TreeBuilder._find_active_formatting_index` (treebuilder.py lines
689-696): scan from the tail, stop at a marker. -/
def findAFIdx (af : List (Option FormatEntry)) (name : String) :
    Nat → Option Nat
  | 0 => none
  | i + 1 =>
    match af.getD i none with
    | none => none
    | some entry => if entry.name = name then some i else findAFIdx af name i

def find_active_formatting_index (af : List (Option FormatEntry))
    (name : String) : Option Nat :=
  findAFIdx af name af.length

/-- `TreeBuilder._find_active_formatting_index_by_node` (treebuilder.py
lines 698-703): scan from the tail; markers are skipped, not stops. -/
def findAFIdxByNode (af : List (Option FormatEntry)) (node : Nat) :
    Nat → Option Nat
  | 0 => none
  | i + 1 =>
    match af.getD i none with
    | some entry =>
      if entry.node = node then some i else findAFIdxByNode af node i
    | none => findAFIdxByNode af node i

def find_active_formatting_index_by_node (af : List (Option FormatEntry))
    (node : Nat) : Option Nat :=
  findAFIdxByNode af node af.length

/-- `TreeBuilder._has_active_formatting_entry` (treebuilder.py lines
731-738): same walk as `_find_active_formatting_index`. -/
def has_active_formatting_entry (af : List (Option FormatEntry))
    (name : String) : Bool :=
  (find_active_formatting_index af name).isSome

/-- `TreeBuilder._remove_formatting_entry` (treebuilder.py lines 776-778). -/
def remove_formatting_entry (af : List (Option FormatEntry)) (index : Nat) :
    List (Option FormatEntry) :=
  af.eraseIdx index

/-- `TreeBuilder._pop_until_inclusive` (treebuilder.py lines 236-241). -/
def pop_until_inclusive (ar : List ANode) (oe : List Nat) (name : String) :
    List Nat :=
  match h : oe.getLast? with
  | none => []
  | some node =>
    if (getNode ar node).name = name then oe.dropLast
    else pop_until_inclusive ar oe.dropLast name
termination_by oe.length
decreasing_by
  have : oe ≠ [] := by
    intro hc
    rw [hc] at h
    simp at h
  have h2 : oe.length ≠ 0 := fun hc => this (List.length_eq_zero.mp hc)
  simp [List.length_dropLast]
  omega

/-- `TreeBuilder._find_last_on_stack` (treebuilder.py lines 811-815). -/
def find_last_on_stack (ar : List ANode) (oe : List Nat) (name : String) :
    Option Nat :=
  oe.reverse.find? fun id => (getNode ar id).name = name

/-- `TreeBuilder._should_foster_parenting` (treebuilder.py lines 925-934). -/
def should_foster_parenting (cfg : TBConfig) (s : TBState) (target : Nat)
    (for_tag : Option String) (is_text : Bool) : Bool :=
  if ¬ s.insert_from_table then false
  else if (getNode s.arena target).name ∉ cfg.table_foster_targets then false
  else if is_text then true
  else if (match for_tag with
           | some t => decide (t ∈ cfg.table_allowed_children)
           | none => false) then false
  else true

/-- Child count used by `_appropriate_insertion_location`; a missing child
list counts as zero (the one unguarded `len(target.children)` in the source
can only be reached with a child-bearing target). -/
def childLen (ar : List ANode) (id : Nat) : Nat :=
  ((getNode ar id).children.getD []).length

/-- `TreeBuilder._appropriate_insertion_location` (treebuilder.py lines
1132-1165) with an explicit override target, as called by the adoption
agency. -/
def appropriate_insertion_location (ar : List ANode) (oe : List Nat)
    (target : Nat) (foster_parenting : Bool) : Except String (Nat × Nat) :=
  if foster_parenting ∧
      (getNode ar target).name ∈ ["table", "tbody", "tfoot", "thead", "tr"] then
    let last_template := find_last_on_stack ar oe "template"
    let last_table := find_last_on_stack ar oe "table"
    match last_template with
    | some tpl =>
      match last_table with
      | none =>
        match (getNode ar tpl).templateContent with
        | some tc => .ok (tc, childLen ar tc)
        | none => .error "AttributeError: template_content is None"
      | some tbl => do
        let ti ← pyIndex oe tpl
        let bi ← pyIndex oe tbl
        if ti > bi then
          match (getNode ar tpl).templateContent with
          | some tc => .ok (tc, childLen ar tc)
          | none => .error "AttributeError: template_content is None"
        else
          match (getNode ar tbl).parent with
          | none => .ok (target, childLen ar target)
          | some parent =>
            match ((getNode ar parent).children.getD []).indexOf? tbl with
            | some position => .ok (parent, position)
            | none => .error "ValueError: table not among parent's children"
    | none =>
      match last_table with
      | none => .ok (target, childLen ar target)
      | some tbl =>
        match (getNode ar tbl).parent with
        | none => .ok (target, childLen ar target)
        | some parent =>
          match ((getNode ar parent).children.getD []).indexOf? tbl with
          | some position => .ok (parent, position)
          | none => .error "ValueError: table not among parent's children"
  else if (getNode ar target).isTemplate ∧
      (getNode ar target).templateContent.isSome then
    match (getNode ar target).templateContent with
    | some tc => .ok (tc, childLen ar tc)
    | none => .ok (target, childLen ar target)
  else .ok (target, childLen ar target)

/-- `TreeBuilder._insert_node_at` (treebuilder.py lines 805-809). -/
def insert_node_at (ar : List ANode) (parent : Nat) (index : Nat)
    (node : Nat) : Except String (List ANode) :=
  let reference : Option Nat :=
    if index < childLen ar parent then
      some (((getNode ar parent).children.getD []).getD index 0)
    else none
  insert_before ar parent node reference

/-- Failure values of the embedded adoption agency: `fuel` marks exhaustion
of the fuel given to one of its unbounded loops (never reached from a
well-formed stack, as proved below); `pyerr` models a Python exception. -/
inductive AAErr where
  | fuel
  | pyerr (msg : String)
  deriving Repr, DecidableEq

/-- Step "no furthest block" (treebuilder_modes.py lines 608-615): pop the
open-elements stack down to and including the formatting element. -/
def popToFmt (oe : List Nat) (fmt : Nat) : Nat → Except AAErr (List Nat)
  | 0 => .error .fuel
  | n + 1 =>
    match oe.getLast? with
    | none => .error (.pyerr "IndexError: pop from empty list")
    | some popped =>
      if popped = fmt then .ok oe.dropLast
      else popToFmt oe.dropLast fmt n

/-- `has_child_nodes` (node.py lines 312-314): Python truthiness of the
child list. -/
def hasChildNodes (ar : List ANode) (id : Nat) : Bool :=
  match (getNode ar id).children with
  | some (_ :: _) => true
  | _ => false

/-- Step 13 (treebuilder_modes.py lines 691-694): move the furthest block's
children, first to last, into the new formatting element. -/
def moveChildren (ar : List ANode) (fb nfe : Nat) :
    Nat → Except AAErr (List ANode)
  | 0 => if hasChildNodes ar fb then .error .fuel else .ok ar
  | n + 1 =>
    match (getNode ar fb).children with
    | some (c :: _) => do
      let ar1 ← (remove_child ar fb c).mapError AAErr.pyerr
      let ar2 := append_child ar1 nfe c
      moveChildren ar2 fb nfe n
    | _ => .ok ar

/-- Mutable state of the inner loop (step 10): arena, open elements,
active formatting, the walking `node`, `last_node`, the bookmark
(`Int`, since Python decrements may interact with negative-index
insertion), and `inner_loop_counter`. -/
structure AAInner where
  arena : List ANode
  oe : List Nat
  af : List (Option FormatEntry)
  node : Nat
  last_node : Nat
  bookmark : Int
  counter : Nat
  deriving Repr, DecidableEq

/-- The inner loop of the adoption agency (step 10, treebuilder_modes.py
lines 624-669): walk `node` down the stack from the furthest block until
the formatting element; drop stack entries without a formatting-list entry
(removing stale formatting entries after three rounds), clone the others
and reparent `last_node` under the clone. -/
def aaInnerLoop (fmt fb : Nat) : Nat → AAInner → Except AAErr AAInner
  | 0, _ => .error .fuel
  | n + 1, st => do
    let counter := st.counter + 1
    let node_index ← (pyIndex st.oe st.node).mapError AAErr.pyerr
    let node ← (pyGet st.oe ((node_index : Int) - 1)).mapError AAErr.pyerr
    if node = fmt then
      .ok { st with counter := counter }
    else
      let nodeFmtIdx0 := find_active_formatting_index_by_node st.af node
      let adj :
          List (Option FormatEntry) × Int × Option Nat :=
        match nodeFmtIdx0 with
        | some idx =>
          if counter > 3 then
            (remove_formatting_entry st.af idx,
             if (idx : Int) < st.bookmark then st.bookmark - 1 else st.bookmark,
             none)
          else (st.af, st.bookmark, some idx)
        | none => (st.af, st.bookmark, none)
      match adj.2.2 with
      | none => do
        let node_index2 ← (pyIndex st.oe node).mapError AAErr.pyerr
        let oe1 := st.oe.erase node
        let node2 ← (pyGet oe1 (node_index2 : Int)).mapError AAErr.pyerr
        aaInnerLoop fmt fb n
          { st with oe := oe1, af := adj.1, bookmark := adj.2.1,
                    node := node2, counter := counter }
      | some idx =>
        match adj.1.getD idx none with
        | none => .error (.pyerr "TypeError: FORMAT_MARKER entry")
        | some entry => do
          let arNew := create_element st.arena entry.name
            (getNode st.arena entry.node).ns entry.attrs
          let af2 := adj.1.set idx (some { entry with node := arNew.2 })
          let oidx ← (pyIndex st.oe node).mapError AAErr.pyerr
          let oe1 := st.oe.set oidx arNew.2
          let bookmark2 : Int :=
            if st.last_node = fb then (idx : Int) + 1 else adj.2.1
          let ar2 ← (match (getNode arNew.1 st.last_node).parent with
                     | some p =>
                       (remove_child arNew.1 p st.last_node).mapError AAErr.pyerr
                     | none => pure arNew.1)
          let ar3 := append_child ar2 arNew.2 st.last_node
          aaInnerLoop fmt fb n
            { arena := ar3, oe := oe1, af := af2, node := arNew.2,
              last_node := arNew.2, bookmark := bookmark2, counter := counter }

/-- One iteration of the outer loop of `_adoption_agency` (steps 3-15,
treebuilder_modes.py lines 575-708).  `.inl` is an early `return` out of
the algorithm, `.inr` falls through to the next outer iteration. -/
def aaIter (cfg : TBConfig) (subject : String) (s : TBState) :
    Except AAErr (TBState ⊕ TBState) := do
  match find_active_formatting_index s.active_formatting subject with
  | none => .ok (.inl s)
  | some fmtIdx => do
    let entry ← (match s.active_formatting.getD fmtIdx none with
                 | some e => pure e
                 | none => .error (.pyerr "TypeError: FORMAT_MARKER entry"))
    let fmt := entry.node
    if fmt ∉ s.open_elements then
      let s1 := tb_parse_error s "adoption-agency-1.3"
      .ok (.inl { s1 with
        active_formatting := remove_formatting_entry s1.active_formatting fmtIdx })
    else
      if ¬ has_element_in_scope cfg s.arena s.open_elements
          (getNode s.arena fmt).name then
        .ok (.inl (tb_parse_error s "adoption-agency-1.3"))
      else
        let s2 := if ¬ (s.open_elements.getLast? = some fmt) then
          tb_parse_error s "adoption-agency-1.3" else s
        do
        let fmt_in_open_idx ← (pyIndex s2.open_elements fmt).mapError AAErr.pyerr
        match (s2.open_elements.drop (fmt_in_open_idx + 1)).find?
            (fun id => is_special_element cfg s2.arena id) with
        | none => do
          let oe1 ← popToFmt s2.open_elements fmt s2.open_elements.length
          let af1 := remove_formatting_entry s2.active_formatting fmtIdx
          .ok (.inl { s2 with open_elements := oe1, active_formatting := af1 })
        | some fb => do
          let st ← aaInnerLoop fmt fb (s2.open_elements.length + 1)
            ⟨s2.arena, s2.open_elements, s2.active_formatting, fb, fb,
             (fmtIdx : Int) + 1, 0⟩
          let common_ancestor ←
            (pyGet st.oe ((fmt_in_open_idx : Int) - 1)).mapError AAErr.pyerr
          let ar4 ← (match (getNode st.arena st.last_node).parent with
                     | some p =>
                       (remove_child st.arena p st.last_node).mapError AAErr.pyerr
                     | none => pure st.arena)
          let s3 : TBState :=
            { s2 with
              arena := ar4
              open_elements := st.oe
              active_formatting := st.af }
          let ar5 ← (if should_foster_parenting cfg s3 common_ancestor
              (some (getNode ar4 st.last_node).name) false then do
              let loc ← (appropriate_insertion_location ar4 st.oe
                common_ancestor true).mapError AAErr.pyerr
              (insert_node_at ar4 loc.1 loc.2 st.last_node).mapError AAErr.pyerr
            else if (getNode ar4 common_ancestor).isTemplate ∧
                (getNode ar4 common_ancestor).templateContent.isSome then
              pure (append_child ar4
                ((getNode ar4 common_ancestor).templateContent.getD 0)
                st.last_node)
            else
              pure (append_child ar4 common_ancestor st.last_node))
          let entry2 ← (match st.af.getD fmtIdx none with
                        | some e => pure e
                        | none => .error (.pyerr "bad formatting entry"))
          let arNfe := create_element ar5 entry2.name
            (getNode ar5 entry2.node).ns entry2.attrs
          let af3 := st.af.set fmtIdx (some { entry2 with node := arNfe.2 })
          let ar7 ← moveChildren arNfe.1 fb arNfe.2 (childLen arNfe.1 fb)
          let ar8 := append_child ar7 fb arNfe.2
          let af4 := remove_formatting_entry af3 fmtIdx
          let af5 := pyInsert af4 (st.bookmark - 1)
            (some { entry2 with node := arNfe.2 })
          let oe2 ← (if fmt ∈ st.oe then pure (st.oe.erase fmt)
                     else .error (AAErr.pyerr "ValueError: list.remove"))
          let fb_idx ← (pyIndex oe2 fb).mapError AAErr.pyerr
          let oe3 := pyInsert oe2 ((fb_idx : Int) + 1) arNfe.2
          .ok (.inr
            { s2 with
              arena := ar8
              open_elements := oe3
              active_formatting := af5 })

/-- The `for _ in range(8)` outer loop (treebuilder_modes.py line 574).
Returns the final state (or error) and the number of iterations begun. -/
def adoptionAgencyLoop (cfg : TBConfig) (subject : String) :
    Nat → TBState → Except AAErr TBState × Nat
  | 0, s => (.ok s, 0)
  | n + 1, s =>
    match aaIter cfg subject s with
    | .error e => (.error e, 1)
    | .ok (.inl s1) => (.ok s1, 1)
    | .ok (.inr s1) =>
      let r := adoptionAgencyLoop cfg subject n s1
      (r.1, r.2 + 1)

/-- `TreeBuilder._adoption_agency(subject)` (treebuilder_modes.py lines
566-708): the step-1 fast path, then at most 8 outer iterations. -/
def adoption_agency (cfg : TBConfig) (subject : String) (s : TBState) :
    Except AAErr TBState × Nat :=
  let topMatches : Bool :=
    match s.open_elements.getLast? with
    | some top => decide ((getNode s.arena top).name = subject)
    | none => false
  if topMatches ∧ ¬ has_active_formatting_entry s.active_formatting subject then
    (.ok { s with
      open_elements := pop_until_inclusive s.arena s.open_elements subject }, 0)
  else adoptionAgencyLoop cfg subject 8 s

theorem indexOf?_eq_some_getElem (l : List Nat) (i : Nat) (x : Nat)
    (h : l.indexOf? x = some i) : i < l.length ∧ l.getD i 0 = x := by
  induction l generalizing i with
  | nil => simp [List.indexOf?] at h
  | cons a t ih =>
    rw [List.indexOf?_cons] at h
    by_cases hax : (a == x) = true
    · rw [if_pos hax] at h
      cases h
      exact ⟨by simp, by simpa using hax⟩
    · rw [if_neg hax] at h
      cases ht : t.indexOf? x with
      | none => rw [ht] at h; simp at h
      | some k =>
        rw [ht] at h
        simp only [Option.map_some'] at h
        cases h
        obtain ⟨h3, h4⟩ := ih k ht
        exact ⟨by simpa using h3, by simpa using h4⟩

theorem nodup_indexOf?_of_getElem (l : List Nat) (hnd : l.Nodup) (j : Nat)
    (hj : j < l.length) : l.indexOf? (l.getD j 0) = some j := by
  induction l generalizing j with
  | nil => simp at hj
  | cons a t ih =>
    rw [List.indexOf?_cons]
    match j with
    | 0 =>
      rw [show (a :: t).getD 0 0 = a from rfl, if_pos (beq_self_eq_true a)]
    | j + 1 =>
      have hjt : j < t.length := by simpa using hj
      have hget : (a :: t).getD (j + 1) 0 = t.getD j 0 := by simp
      rw [hget]
      have hmem : t.getD j 0 ∈ t := by
        rw [List.getD_eq_getElem t 0 hjt]
        exact List.getElem_mem hjt
      have hne : (a == t.getD j 0) ≠ true := by
        simp only [ne_eq, beq_iff_eq]
        intro hc
        exact (List.nodup_cons.mp hnd).1 (hc ▸ hmem)
      rw [if_neg hne, ih (List.nodup_cons.mp hnd).2 j hjt]
      rfl

theorem erase_of_nodup_getElem (l : List Nat) (hnd : l.Nodup) (j : Nat)
    (hj : j < l.length) : l.erase (l.getD j 0) = l.eraseIdx j := by
  induction l generalizing j with
  | nil => simp at hj
  | cons a t ih =>
    match j with
    | 0 => simp [List.erase_cons_head]
    | j + 1 =>
      have hjt : j < t.length := by simpa using hj
      have hmem : t.getD j 0 ∈ t := by
        rw [List.getD_eq_getElem t 0 hjt]
        exact List.getElem_mem hjt
      have hne : ¬ (a == t.getD j 0) = true := by
        simp only [beq_iff_eq]
        intro hc
        exact (List.nodup_cons.mp hnd).1 (hc ▸ hmem)
      have hget : (a :: t).getD (j + 1) 0 = t.getD j 0 := by simp
      rw [hget, List.erase_cons_tail hne, ih (List.nodup_cons.mp hnd).2 j hjt]
      rfl

theorem setNode_length (ar : List ANode) (i : Nat) (n : ANode) :
    (setNode ar i n).length = ar.length := List.length_set ar i n

theorem append_child_length (ar : List ANode) (p c : Nat) :
    (append_child ar p c).length = ar.length := by
  unfold append_child
  cases (getNode ar p).children with
  | none => rfl
  | some cs => simp [setNode_length]

theorem remove_child_length (ar : List ANode) (p c : Nat)
    (ar' : List ANode) (h : remove_child ar p c = .ok ar') :
    ar'.length = ar.length := by
  unfold remove_child at h
  cases hch : (getNode ar p).children with
  | none => rw [hch] at h; cases h; rfl
  | some cs =>
    rw [hch] at h
    dsimp only at h
    by_cases hc : c ∈ cs
    · rw [if_pos hc] at h
      cases h
      simp [setNode_length]
    · rw [if_neg hc] at h
      cases h

theorem insert_before_length (ar : List ANode) (p node : Nat)
    (ref : Option Nat) (ar' : List ANode)
    (h : insert_before ar p node ref = .ok ar') : ar'.length = ar.length := by
  unfold insert_before at h
  cases hch : (getNode ar p).children with
  | none => rw [hch] at h; cases h
  | some cs =>
    rw [hch] at h
    dsimp only at h
    cases ref with
    | none =>
      cases h
      exact append_child_length ar p node
    | some r =>
      dsimp only at h
      cases hidx : cs.indexOf? r with
      | none =>
        rw [hidx] at h
        cases h
      | some idx =>
        rw [hidx] at h
        cases h
        simp [setNode_length]

theorem insert_node_at_length (ar : List ANode) (parent index node : Nat)
    (ar' : List ANode) (h : insert_node_at ar parent index node = .ok ar') :
    ar'.length = ar.length := by
  unfold insert_node_at at h
  exact insert_before_length ar parent node _ ar' h

theorem getNode_children_some_lt (ar : List ANode) (i : Nat)
    (l : List Nat) (h : (getNode ar i).children = some l) : i < ar.length := by
  by_contra hc
  have : getNode ar i = defaultANode := by
    unfold getNode
    rw [List.getD_eq_default]
    omega
  rw [this] at h
  simp [defaultANode] at h

theorem getNode_setNode_same (ar : List ANode) (i : Nat) (n : ANode)
    (hi : i < ar.length) : getNode (setNode ar i n) i = n := by
  unfold getNode setNode
  rw [List.getD_eq_getElem _ _ (by simpa using hi)]
  exact List.getElem_set_self _

theorem getNode_setNode_ne (ar : List ANode) (i j : Nat) (n : ANode)
    (hij : i ≠ j) : getNode (setNode ar i n) j = getNode ar j := by
  unfold getNode setNode
  by_cases hj : j < ar.length
  · rw [List.getD_eq_getElem _ _ (by simpa using hj),
      List.getD_eq_getElem _ _ hj]
    exact List.getElem_set_ne hij _
  · rw [List.getD_eq_default _ _ (by simpa using hj),
      List.getD_eq_default _ _ (by omega)]

theorem exbind_ok {ε α β : Type} (a : α) (f : α → Except ε β) :
    (Except.ok a >>= f) = f a := rfl

theorem exbind_err {ε α β : Type} (e : ε) (f : α → Except ε β) :
    ((Except.error e : Except ε α) >>= f) = Except.error e := rfl

theorem mapError_ok {ε ε' α : Type} (g : ε → ε') (a : α) :
    (Except.ok a : Except ε α).mapError g = .ok a := rfl

theorem mapError_err {ε ε' α : Type} (g : ε → ε') (e : ε) :
    (Except.error e : Except ε α).mapError g = .error (g e) := rfl

theorem tb_parse_error_open_elements (s : TBState) (c : String) :
    (tb_parse_error s c).open_elements = s.open_elements := by
  unfold tb_parse_error; split <;> rfl

theorem tb_parse_error_arena (s : TBState) (c : String) :
    (tb_parse_error s c).arena = s.arena := by
  unfold tb_parse_error; split <;> rfl

theorem tb_parse_error_active_formatting (s : TBState) (c : String) :
    (tb_parse_error s c).active_formatting = s.active_formatting := by
  unfold tb_parse_error; split <;> rfl

theorem pyInsert_perm {α : Type} (l : List α) (i : Int) (x : α) :
    (pyInsert l i x).Perm (x :: l) := by
  unfold pyInsert
  apply List.perm_insertIdx
  dsimp only
  split <;> omega

theorem nodup_getD_inj (l : List Nat) (hnd : l.Nodup) (i k : Nat)
    (hi : i < l.length) (hk : k < l.length)
    (h : l.getD i 0 = l.getD k 0) : i = k := by
  rw [List.getD_eq_getElem _ _ hi, List.getD_eq_getElem _ _ hk] at h
  exact (List.Nodup.getElem_inj_iff hnd).mp h

theorem getD_mem (l : List Nat) (i : Nat) (hi : i < l.length) :
    l.getD i 0 ∈ l := by
  rw [List.getD_eq_getElem _ _ hi]
  exact List.getElem_mem hi

theorem getD_eraseIdx_lt (l : List Nat) (k i : Nat) (hik : i < k)
    (hi : i < (l.eraseIdx k).length) :
    (l.eraseIdx k).getD i 0 = l.getD i 0 := by
  have hlen := List.length_eraseIdx l k
  have hl : i < l.length := by
    by_cases h : k < l.length <;> simp [h] at hlen <;> omega
  rw [List.getD_eq_getElem _ _ hi, List.getD_eq_getElem _ _ hl,
    List.getElem_eraseIdx, dif_pos hik]

theorem getD_eraseIdx_ge (l : List Nat) (k i : Nat) (hik : k ≤ i)
    (hi : i < (l.eraseIdx k).length) :
    (l.eraseIdx k).getD i 0 = l.getD (i + 1) 0 := by
  have hlen := List.length_eraseIdx l k
  have hl : i + 1 < l.length := by
    by_cases h : k < l.length <;> simp [h] at hlen <;> omega
  rw [List.getD_eq_getElem _ _ hi, List.getD_eq_getElem _ _ hl,
    List.getElem_eraseIdx, dif_neg (by omega)]

theorem getD_set_self (l : List Nat) (i x : Nat) (hi : i < l.length) :
    (l.set i x).getD i 0 = x := by
  rw [List.getD_eq_getElem _ _ (by simpa using hi)]
  exact List.getElem_set_self _

theorem getD_set_ne (l : List Nat) (i j x : Nat) (hij : i ≠ j) :
    (l.set i x).getD j 0 = l.getD j 0 := by
  by_cases hj : j < l.length
  · rw [List.getD_eq_getElem _ _ (by simpa using hj),
      List.getD_eq_getElem _ _ hj]
    exact List.getElem_set_ne hij _
  · rw [List.getD_eq_default _ _ (by simpa using hj),
      List.getD_eq_default _ _ (by omega)]

theorem popToFmt_ok (fmt : Nat) : ∀ (n : Nat) (oe : List Nat),
    oe.length ≤ n → fmt ∈ oe → ∃ oe', popToFmt oe fmt n = .ok oe' := by
  intro n
  induction n with
  | zero =>
    intro oe hn hmem
    rw [List.length_eq_zero.mp (Nat.le_zero.mp hn)] at hmem
    simp at hmem
  | succ n ih =>
    intro oe hn hmem
    have hne : oe ≠ [] := by
      intro hc; rw [hc] at hmem; simp at hmem
    rw [show popToFmt oe fmt (n + 1) = (match oe.getLast? with
      | none => .error (.pyerr "IndexError: pop from empty list")
      | some popped => if popped = fmt then .ok oe.dropLast
        else popToFmt oe.dropLast fmt n) from rfl]
    rw [List.getLast?_eq_getLast oe hne]
    dsimp only
    by_cases hl : oe.getLast hne = fmt
    · rw [if_pos hl]; exact ⟨_, rfl⟩
    · rw [if_neg hl]
      apply ih
      · rw [List.length_dropLast]; omega
      · have hsplit := List.dropLast_append_getLast hne
        rw [← hsplit] at hmem
        rcases List.mem_append.mp hmem with h | h
        · exact h
        · simp only [List.mem_singleton] at h
          exact absurd h.symm hl

theorem getNode_setNode_oob (ar : List ANode) (i j : Nat) (n : ANode)
    (hi : ar.length ≤ i) : getNode (setNode ar i n) j = getNode ar j := by
  unfold setNode
  rw [List.set_eq_of_length_le hi]

theorem remove_child_head (ar : List ANode) (fb c : Nat) (rest : List Nat)
    (h : (getNode ar fb).children = some (c :: rest)) :
    ∃ ar1, remove_child ar fb c = .ok ar1 ∧
      (getNode ar1 fb).children = some rest ∧ ar1.length = ar.length := by
  have hfb : fb < ar.length := getNode_children_some_lt ar fb _ h
  unfold remove_child
  rw [h]
  dsimp only
  rw [if_pos (List.mem_cons_self c rest), List.erase_cons_head]
  refine ⟨_, rfl, ?_, by simp [setNode]⟩
  by_cases hcfb : c = fb
  · subst hcfb
    have hlen1 : c <
        (setNode ar c { getNode ar c with children := some rest }).length := by
      simpa [setNode] using hfb
    rw [getNode_setNode_same _ _ _ hlen1]
    show (getNode (setNode ar c { getNode ar c with children := some rest })
      c).children = some rest
    rw [getNode_setNode_same _ _ _ hfb]
  · rw [getNode_setNode_ne _ c fb _ hcfb, getNode_setNode_same _ _ _ hfb]

theorem append_child_children_ne (ar : List ANode) (p c fb : Nat)
    (hpfb : p ≠ fb) :
    (getNode (append_child ar p c) fb).children = (getNode ar fb).children := by
  unfold append_child
  cases hch : (getNode ar p).children with
  | none => rfl
  | some cs =>
    dsimp only
    by_cases hcfb : c = fb
    · subst hcfb
      by_cases hc : c < ar.length
      · have hc1 : c <
            (setNode ar p
              { getNode ar p with children := some (cs ++ [c]) }).length := by
          simpa [setNode] using hc
        rw [getNode_setNode_same _ _ _ hc1]
        show (getNode (setNode ar p
          { getNode ar p with children := some (cs ++ [c]) }) c).children =
          (getNode ar c).children
        rw [getNode_setNode_ne _ p c _ hpfb]
      · rw [getNode_setNode_oob _ _ _ _ (by simpa [setNode] using hc),
          getNode_setNode_ne _ p c _ hpfb]
    · rw [getNode_setNode_ne _ c fb _ hcfb, getNode_setNode_ne _ p fb _ hpfb]

theorem moveChildren_ok (fb nfe : Nat) (hne : fb ≠ nfe) : ∀ (n : Nat)
    (ar : List ANode), childLen ar fb ≤ n →
    ∃ ar', moveChildren ar fb nfe n = .ok ar' ∧ ar'.length = ar.length := by
  intro n
  induction n with
  | zero =>
    intro ar hn
    rw [show moveChildren ar fb nfe 0 =
      (if hasChildNodes ar fb then .error .fuel else .ok ar) from rfl]
    have hz : ¬ (hasChildNodes ar fb = true) := by
      unfold hasChildNodes
      unfold childLen at hn
      cases hch : (getNode ar fb).children with
      | none => simp
      | some cs =>
        rw [hch] at hn
        cases cs with
        | nil => simp
        | cons a t => simp at hn
    rw [if_neg hz]
    exact ⟨ar, rfl, rfl⟩
  | succ n ih =>
    intro ar hn
    rw [show moveChildren ar fb nfe (n + 1) =
      (match (getNode ar fb).children with
        | some (c :: _) => do
          let ar1 ← (remove_child ar fb c).mapError AAErr.pyerr
          let ar2 := append_child ar1 nfe c
          moveChildren ar2 fb nfe n
        | _ => .ok ar) from rfl]
    cases hch : (getNode ar fb).children with
    | none => exact ⟨ar, rfl, rfl⟩
    | some cs =>
      cases cs with
      | nil => exact ⟨ar, rfl, rfl⟩
      | cons c rest =>
        obtain ⟨ar1, heq, hch1, hlen1⟩ := remove_child_head ar fb c rest hch
        dsimp only
        rw [heq, mapError_ok, exbind_ok]
        have hcl : childLen (append_child ar1 nfe c) fb ≤ n := by
          unfold childLen
          rw [append_child_children_ne ar1 nfe c fb (Ne.symm hne), hch1]
          unfold childLen at hn
          rw [hch] at hn
          simpa using Nat.le_of_succ_le_succ (by simpa using hn)
        obtain ⟨ar', hrun, hlen'⟩ := ih (append_child ar1 nfe c) hcl
        refine ⟨ar', hrun, ?_⟩
        rw [hlen', append_child_length ar1 nfe c, hlen1]

/-- "This adoption-agency computation does not run out of fuel, and any
normal result satisfies `P`." -/
def NoFuelAnd {α : Type} (P : α → Prop) (x : Except AAErr α) : Prop :=
  x ≠ .error .fuel ∧ ∀ a, x = .ok a → P a

theorem noFuelAnd_ok {α : Type} (P : α → Prop) (a : α) (h : P a) :
    NoFuelAnd P (.ok a) := by
  constructor
  · intro hc; exact Except.noConfusion hc
  · intro a' ha
    cases ha
    exact h

theorem noFuelAnd_pyerr {α : Type} (P : α → Prop) (m : String) :
    NoFuelAnd P (.error (.pyerr m)) := by
  constructor
  · intro hc
    exact AAErr.noConfusion (Except.error.inj hc)
  · intro a' ha; exact Except.noConfusion ha

theorem noFuelAnd_mono {α : Type} (P Q : α → Prop) (x : Except AAErr α)
    (h : NoFuelAnd P x) (himp : ∀ a, P a → Q a) : NoFuelAnd Q x :=
  ⟨h.1, fun a ha => himp a (h.2 a ha)⟩

theorem expure_eq_ok {ε α : Type} (a : α) :
    (pure a : Except ε α) = .ok a := rfl

theorem indexOf?_isSome_of_mem (l : List Nat) (x : Nat) (h : x ∈ l) :
    ∃ i, l.indexOf? x = some i := by
  cases hio : l.indexOf? x with
  | some i => exact ⟨i, rfl⟩
  | none =>
    have := List.indexOf?_eq_none_iff.mp hio x h
    simp at this

theorem pyIndex_of_getD (l : List Nat) (hnd : l.Nodup) (j : Nat)
    (hj : j < l.length) : pyIndex l (l.getD j 0) = .ok j := by
  unfold pyIndex
  rw [nodup_indexOf?_of_getElem l hnd j hj]

theorem pyGet_nat (l : List Nat) (k : Nat) (hk : k < l.length) :
    pyGet l (k : Int) = .ok (l.getD k 0) := by
  unfold pyGet
  rw [if_pos (⟨by omega, by exact_mod_cast hk⟩ :
    (0 : Int) ≤ (k : Int) ∧ (k : Int) < (l.length : Int))]
  have ht : ((k : Int)).toNat = k := by omega
  rw [ht]

theorem pyGet_sub_one (l : List Nat) (j : Nat) (hj1 : 1 ≤ j)
    (hj : j < l.length) :
    pyGet l ((j : Int) - 1) = .ok (l.getD (j - 1) 0) := by
  unfold pyGet
  rw [if_pos (⟨by omega, by omega⟩ :
    (0 : Int) ≤ (j : Int) - 1 ∧ (j : Int) - 1 < (l.length : Int))]
  have ht : ((j : Int) - 1).toNat = j - 1 := by omega
  rw [ht]

theorem pyGet_fmtidx (l : List Nat) (f0 : Nat) (hf0 : f0 < l.length) :
    ∃ v, pyGet l ((f0 : Int) - 1) = .ok v := by
  by_cases h1 : 1 ≤ f0
  · exact ⟨_, pyGet_sub_one l f0 h1 hf0⟩
  · have hz : f0 = 0 := by omega
    subst hz
    have hcast : ((0 : Nat) : Int) - 1 = -1 := by norm_num
    rw [hcast]
    unfold pyGet
    rw [if_neg (by omega), if_pos (⟨by omega, by omega⟩ :
      -((l.length : Nat) : Int) ≤ (-1 : Int) ∧ (-1 : Int) < 0)]
    exact ⟨_, rfl⟩

/-- Invariant of the step-10 inner loop: the stack is duplicate-free and
valid for the arena, the formatting element sits at the fixed index `f0`,
the walking `node` sits at index `j` strictly above it, and the furthest
block `fb` sits at index `jb` at or above `j`. -/
def InnerOk (fmt fb f0 j jb : Nat) (st : AAInner) : Prop :=
  st.oe.Nodup ∧ (∀ id ∈ st.oe, id < st.arena.length) ∧
  f0 < j ∧ j ≤ jb ∧ jb < st.oe.length ∧
  st.oe.getD f0 0 = fmt ∧ st.oe.getD j 0 = st.node ∧ st.oe.getD jb 0 = fb

/-- Guarantee of the step-10 inner loop on normal return: the invariant's
structural parts survive, the arena only grew, and `fmt` and `fb` are still
on the stack at their relative positions. -/
def InnerPost (fmt fb f0 ar0len : Nat) (st' : AAInner) : Prop :=
  st'.oe.Nodup ∧ (∀ id ∈ st'.oe, id < st'.arena.length) ∧
  ar0len ≤ st'.arena.length ∧ st'.oe.getD f0 0 = fmt ∧
  ∃ jb, f0 < jb ∧ jb < st'.oe.length ∧ st'.oe.getD jb 0 = fb

theorem aaInnerLoop_erase_cont (fmt fb f0 n : Nat)
    (ih : ∀ (st : AAInner) (j jb : Nat), InnerOk fmt fb f0 j jb st → j < n →
      NoFuelAnd (InnerPost fmt fb f0 st.arena.length) (aaInnerLoop fmt fb n st))
    (st : AAInner) (j jb : Nat) (af' : List (Option FormatEntry)) (bm' : Int)
    (hok : InnerOk fmt fb f0 j jb st) (hjn : j < n + 1)
    (hb : st.oe.getD (j - 1) 0 ≠ fmt) :
    NoFuelAnd (InnerPost fmt fb f0 st.arena.length)
      (do
        let node_index2 ← (pyIndex st.oe (st.oe.getD (j - 1) 0)).mapError
          AAErr.pyerr
        let oe1 := st.oe.erase (st.oe.getD (j - 1) 0)
        let node2 ← (pyGet oe1 (node_index2 : Int)).mapError AAErr.pyerr
        aaInnerLoop fmt fb n
          { st with oe := oe1, af := af', bookmark := bm',
                    node := node2, counter := st.counter + 1 }) := by
  obtain ⟨hnd, hval, hf0j, hjjb, hjblen, hgf, hgj, hgb⟩ := hok
  have hjlen : j < st.oe.length := lt_of_le_of_lt hjjb hjblen
  have hj1m : j - 1 < st.oe.length := by omega
  have hpy2 : pyIndex st.oe (st.oe.getD (j - 1) 0) = .ok (j - 1) :=
    pyIndex_of_getD st.oe hnd (j - 1) hj1m
  rw [hpy2, mapError_ok, exbind_ok]
  have herase : st.oe.erase (st.oe.getD (j - 1) 0) = st.oe.eraseIdx (j - 1) :=
    erase_of_nodup_getElem st.oe hnd (j - 1) hj1m
  dsimp only
  rw [herase]
  have hlen1 : (st.oe.eraseIdx (j - 1)).length = st.oe.length - 1 :=
    List.length_eraseIdx_of_lt hj1m
  have hget2 : pyGet (st.oe.eraseIdx (j - 1)) ((j - 1 : Nat) : Int) =
      .ok ((st.oe.eraseIdx (j - 1)).getD (j - 1) 0) :=
    pyGet_nat _ _ (by omega)
  rw [hget2, mapError_ok, exbind_ok]
  have hf0ne : f0 ≠ j - 1 := fun hc => hb (by rw [← hc]; exact hgf)
  have hih := ih
    { st with oe := st.oe.eraseIdx (j - 1), af := af', bookmark := bm',
              node := (st.oe.eraseIdx (j - 1)).getD (j - 1) 0,
              counter := st.counter + 1 }
    (j - 1) (jb - 1) ?_ (by omega)
  · exact hih
  · refine ⟨(List.eraseIdx_sublist st.oe (j - 1)).nodup hnd, ?_, by omega,
      by omega,
      show jb - 1 < (st.oe.eraseIdx (j - 1)).length from by omega,
      ?_, rfl, ?_⟩
    · intro id hid
      exact hval id ((List.eraseIdx_sublist st.oe (j - 1)).subset hid)
    · rw [getD_eraseIdx_lt st.oe (j - 1) f0 (by omega) (by omega)]
      exact hgf
    · rw [getD_eraseIdx_ge st.oe (j - 1) (jb - 1) (by omega) (by omega)]
      have hjb1 : jb - 1 + 1 = jb := by omega
      rw [hjb1]
      exact hgb

theorem InnerPost_mono (fmt fb f0 L L' : Nat) (a : AAInner)
    (h : InnerPost fmt fb f0 L a) (hle : L' ≤ L) :
    InnerPost fmt fb f0 L' a :=
  ⟨h.1, h.2.1, le_trans hle h.2.2.1, h.2.2.2.1, h.2.2.2.2⟩

theorem aaInnerLoop_clone_cont (fmt fb f0 n : Nat)
    (ih : ∀ (st : AAInner) (j jb : Nat), InnerOk fmt fb f0 j jb st → j < n →
      NoFuelAnd (InnerPost fmt fb f0 st.arena.length) (aaInnerLoop fmt fb n st))
    (st : AAInner) (j jb idx : Nat)
    (hok : InnerOk fmt fb f0 j jb st) (hjn : j < n + 1)
    (hb : st.oe.getD (j - 1) 0 ≠ fmt) :
    NoFuelAnd (InnerPost fmt fb f0 st.arena.length)
      (match st.af.getD idx none with
        | none => .error (.pyerr "TypeError: FORMAT_MARKER entry")
        | some entry => do
          let arNew := create_element st.arena entry.name
            (getNode st.arena entry.node).ns entry.attrs
          let af2 := st.af.set idx (some { entry with node := arNew.2 })
          let oidx ← (pyIndex st.oe (st.oe.getD (j - 1) 0)).mapError AAErr.pyerr
          let oe1 := st.oe.set oidx arNew.2
          let bookmark2 : Int :=
            if st.last_node = fb then (idx : Int) + 1 else st.bookmark
          let ar2 ← (match (getNode arNew.1 st.last_node).parent with
                     | some p =>
                       (remove_child arNew.1 p st.last_node).mapError AAErr.pyerr
                     | none => pure arNew.1)
          let ar3 := append_child ar2 arNew.2 st.last_node
          aaInnerLoop fmt fb n
            { arena := ar3, oe := oe1, af := af2, node := arNew.2,
              last_node := arNew.2, bookmark := bookmark2,
              counter := st.counter + 1 }) := by
  obtain ⟨hnd, hval, hf0j, hjjb, hjblen, hgf, hgj, hgb⟩ := hok
  have hjlen : j < st.oe.length := lt_of_le_of_lt hjjb hjblen
  have hj1m : j - 1 < st.oe.length := by omega
  have hf0ne : f0 ≠ j - 1 := fun hc => hb (by rw [← hc]; exact hgf)
  cases haf : st.af.getD idx none with
  | none => exact noFuelAnd_pyerr _ _
  | some entry =>
    split
    next heq => exact Option.noConfusion heq
    next e heq =>
      injection heq with h
      subst h
      rw [pyIndex_of_getD st.oe hnd (j - 1) hj1m, mapError_ok, exbind_ok]
      dsimp only
      generalize hA : create_element st.arena entry.name
        (getNode st.arena entry.node).ns entry.attrs = A
      have hA2 : A.2 = st.arena.length := by rw [← hA]; rfl
      have hA1 : A.1.length = st.arena.length + 1 := by
        rw [← hA]; simp [create_element]
      have hfinal : ∀ (ar2 : List ANode), ar2.length = st.arena.length + 1 →
          ∀ (bm2 : Int), NoFuelAnd (InnerPost fmt fb f0 st.arena.length)
            (aaInnerLoop fmt fb n
              ⟨append_child ar2 A.2 st.last_node, st.oe.set (j - 1) A.2,
               st.af.set idx (some { entry with node := A.2 }), A.2, A.2, bm2,
               st.counter + 1⟩) := by
        intro ar2 har2 bm2
        have h3len : (append_child ar2 A.2 st.last_node).length =
            st.arena.length + 1 := by
          rw [append_child_length, har2]
        have hinv : InnerOk fmt fb f0 (j - 1) jb
            ⟨append_child ar2 A.2 st.last_node, st.oe.set (j - 1) A.2,
             st.af.set idx (some { entry with node := A.2 }), A.2, A.2, bm2,
             st.counter + 1⟩ := by
          dsimp only [InnerOk]
          refine ⟨?_, ?_, by omega, by omega, ?_, ?_, ?_, ?_⟩
          · exact List.Nodup.set hnd
              (by rw [hA2]; intro hc; exact lt_irrefl _ (hval _ hc))
          · intro id hid
            rcases List.mem_or_eq_of_mem_set hid with h | h
            · have := hval id h
              rw [h3len]; omega
            · rw [h, h3len]; omega
          · rw [List.length_set]; omega
          · rw [getD_set_ne _ _ _ _ (by omega)]; exact hgf
          · exact getD_set_self _ _ _ hj1m
          · rw [getD_set_ne _ _ _ _ (by omega)]; exact hgb
        have hpost := ih _ (j - 1) jb hinv (by omega)
        exact noFuelAnd_mono _ _ _ hpost (fun a ha =>
          InnerPost_mono fmt fb f0 _ st.arena.length a ha
            (by dsimp only; rw [h3len]; omega))
      split
      next p heq2 =>
        cases hrc : remove_child A.1 p st.last_node with
        | error m =>
          rw [mapError_err, exbind_err]
          exact noFuelAnd_pyerr _ _
        | ok ar2 =>
          rw [mapError_ok, exbind_ok]
          exact hfinal ar2 ((remove_child_length _ _ _ _ hrc).trans hA1) _
      next heq2 =>
        rw [expure_eq_ok, exbind_ok]
        exact hfinal A.1 hA1 _

theorem aaInnerLoop_no_fuel (fmt fb f0 : Nat) : ∀ (n : Nat) (st : AAInner)
    (j jb : Nat), InnerOk fmt fb f0 j jb st → j < n →
    NoFuelAnd (InnerPost fmt fb f0 st.arena.length)
      (aaInnerLoop fmt fb n st) := by
  intro n
  induction n with
  | zero =>
    intro st j jb _ hj
    omega
  | succ n ih =>
    intro st j jb hok hjn
    obtain ⟨hnd, hval, hf0j, hjjb, hjblen, hgf, hgj, hgb⟩ := hok
    have hjlen : j < st.oe.length := lt_of_le_of_lt hjjb hjblen
    have hj1m : j - 1 < st.oe.length := by omega
    have hpy1 : pyIndex st.oe st.node = .ok j := by
      rw [← hgj]; exact pyIndex_of_getD st.oe hnd j hjlen
    have hget1 : pyGet st.oe ((j : Int) - 1) = .ok (st.oe.getD (j - 1) 0) :=
      pyGet_sub_one st.oe j (by omega) hjlen
    simp only [aaInnerLoop]
    rw [hpy1, mapError_ok, exbind_ok]
    rw [hget1, mapError_ok, exbind_ok]
    by_cases hb : st.oe.getD (j - 1) 0 = fmt
    · rw [if_pos hb]
      apply noFuelAnd_ok
      exact ⟨hnd, hval, le_refl _, hgf, jb, by omega, hjblen, hgb⟩
    · rw [if_neg hb]
      cases hf : find_active_formatting_index_by_node st.af
          (st.oe.getD (j - 1) 0) with
      | none =>
        exact aaInnerLoop_erase_cont fmt fb f0 n ih st j jb st.af st.bookmark
          ⟨hnd, hval, hf0j, hjjb, hjblen, hgf, hgj, hgb⟩ hjn hb
      | some idx =>
        dsimp only
        by_cases hc3 : st.counter + 1 > 3
        · rw [if_pos hc3]
          exact aaInnerLoop_erase_cont fmt fb f0 n ih st j jb
            (remove_formatting_entry st.af idx)
            (if (idx : Int) < st.bookmark then st.bookmark - 1 else st.bookmark)
            ⟨hnd, hval, hf0j, hjjb, hjblen, hgf, hgj, hgb⟩ hjn hb
        · rw [if_neg hc3]
          exact aaInnerLoop_clone_cont fmt fb f0 n ih st j jb idx
            ⟨hnd, hval, hf0j, hjjb, hjblen, hgf, hgj, hgb⟩ hjn hb

/-- The tree-builder state invariant maintained by the adoption agency: the
open-elements stack holds distinct handles, all of which point into the
arena.  (In the source these hold because the stack stores distinct live
node objects.) -/
def TBInv (s : TBState) : Prop :=
  s.open_elements.Nodup ∧ ∀ id ∈ s.open_elements, id < s.arena.length

theorem ite_parse_error_open_elements (C : Prop) [Decidable C] (s : TBState)
    (c : String) :
    (if C then tb_parse_error s c else s).open_elements = s.open_elements := by
  split
  · exact tb_parse_error_open_elements s c
  · rfl

theorem ite_parse_error_arena (C : Prop) [Decidable C] (s : TBState)
    (c : String) :
    (if C then tb_parse_error s c else s).arena = s.arena := by
  split
  · exact tb_parse_error_arena s c
  · rfl

theorem ite_parse_error_active_formatting (C : Prop) [Decidable C]
    (s : TBState) (c : String) :
    (if C then tb_parse_error s c else s).active_formatting =
      s.active_formatting := by
  split
  · exact tb_parse_error_active_formatting s c
  · rfl

theorem aaIter_tail_spec (s2 : TBState) (af : List (Option FormatEntry))
    (bm : Int) (oeI : List Nat) (fmtIdx fb enode f0 jbI : Nat)
    (ar5 : List ANode) (hndI : oeI.Nodup)
    (hvalI : ∀ id ∈ oeI, id < ar5.length)
    (hf0jb : f0 < jbI) (hjbI : jbI < oeI.length)
    (hgfI : oeI.getD f0 0 = enode) (hgbI : oeI.getD jbI 0 = fb) :
    NoFuelAnd (fun r => ∀ s', r = Sum.inr s' → TBInv s')
      ((do
        let entry2 ← (match af.getD fmtIdx none with
                      | some e2 => pure e2
                      | none => Except.error (AAErr.pyerr "bad formatting entry"))
        let arNfe := create_element ar5 entry2.name
          (getNode ar5 entry2.node).ns entry2.attrs
        let af3 := af.set fmtIdx (some { entry2 with node := arNfe.2 })
        let ar7 ← moveChildren arNfe.1 fb arNfe.2 (childLen arNfe.1 fb)
        let ar8 := append_child ar7 fb arNfe.2
        let af4 := remove_formatting_entry af3 fmtIdx
        let af5 := pyInsert af4 (bm - 1) (some { entry2 with node := arNfe.2 })
        let oe2 ← (if enode ∈ oeI then pure (oeI.erase enode)
                   else Except.error (AAErr.pyerr "ValueError: list.remove"))
        let fb_idx ← (pyIndex oe2 fb).mapError AAErr.pyerr
        let oe3 := pyInsert oe2 ((fb_idx : Int) + 1) arNfe.2
        Except.ok (Sum.inr { s2 with
          arena := ar8
          open_elements := oe3
          active_formatting := af5 })) :
        Except AAErr (TBState ⊕ TBState)) := by
  have hfbmem : fb ∈ oeI := by rw [← hgbI]; exact getD_mem _ _ hjbI
  have hfbAr : fb < ar5.length := hvalI fb hfbmem
  cases hent2 : af.getD fmtIdx none with
  | none => exact noFuelAnd_pyerr _ _
  | some e2 =>
    split
    next e2' heq =>
      injection heq with h
      subst h
      rw [expure_eq_ok, exbind_ok]
      dsimp only
      generalize hB : create_element ar5 e2.name
        (getNode ar5 e2.node).ns e2.attrs = B
      have hB2 : B.2 = ar5.length := by rw [← hB]; rfl
      have hB1 : B.1.length = ar5.length + 1 := by rw [← hB]; simp [create_element]
      obtain ⟨ar7, hmv, hmvlen⟩ :=
        moveChildren_ok fb B.2 (by omega) (childLen B.1 fb) B.1 (le_refl _)
      rw [hmv, exbind_ok]
      rw [if_pos (show enode ∈ oeI from hgfI ▸ getD_mem oeI f0 (by omega))]
      rw [expure_eq_ok, exbind_ok]
      have herase : oeI.erase enode = oeI.eraseIdx f0 := by
        rw [← hgfI]; exact erase_of_nodup_getElem oeI hndI f0 (by omega)
      rw [herase]
      have hoe2len : (oeI.eraseIdx f0).length = oeI.length - 1 :=
        List.length_eraseIdx_of_lt (by omega)
      have hgb2 : (oeI.eraseIdx f0).getD (jbI - 1) 0 = fb := by
        rw [getD_eraseIdx_ge oeI f0 (jbI - 1) (by omega) (by omega)]
        have hj : jbI - 1 + 1 = jbI := by omega
        rw [hj]
        exact hgbI
      have hfbmem2 : fb ∈ oeI.eraseIdx f0 := hgb2 ▸ getD_mem _ _ (by omega)
      obtain ⟨fbi, hfbio⟩ := indexOf?_isSome_of_mem _ _ hfbmem2
      have hpyfb : pyIndex (oeI.eraseIdx f0) fb = .ok fbi := by
        unfold pyIndex; rw [hfbio]
      rw [hpyfb, mapError_ok, exbind_ok]
      apply noFuelAnd_ok
      intro s' h
      injection h with h
      subst h
      have h8len : (append_child ar7 fb B.2).length = ar5.length + 1 := by
        rw [append_child_length, hmvlen, hB1]
      constructor
      · refine ((pyInsert_perm (oeI.eraseIdx f0) ((fbi : Int) + 1) B.2).symm.nodup)
          (List.nodup_cons.mpr ⟨?_, (List.eraseIdx_sublist _ _).nodup hndI⟩)
        intro hc
        have := hvalI B.2 ((List.eraseIdx_sublist _ _).subset hc)
        omega
      · intro id hid
        have hmem3 :=
          (pyInsert_perm (oeI.eraseIdx f0) ((fbi : Int) + 1) B.2).mem_iff.mp hid
        rcases List.mem_cons.mp hmem3 with h | h
        · rw [h, h8len]; omega
        · have := hvalI id ((List.eraseIdx_sublist _ _).subset h)
          rw [h8len]; omega
    next heq => exact Option.noConfusion heq

theorem aaIter_no_fuel (cfg : TBConfig) (subject : String) (s : TBState)
    (hinv : TBInv s) :
    NoFuelAnd (fun r => ∀ s', r = Sum.inr s' → TBInv s')
      (aaIter cfg subject s) := by
  obtain ⟨hnd, hval⟩ := hinv
  unfold aaIter
  cases hfi : find_active_formatting_index s.active_formatting subject with
  | none =>
    apply noFuelAnd_ok
    intro s' h
    exact Sum.noConfusion h
  | some fmtIdx =>
    dsimp only
    cases hent : s.active_formatting.getD fmtIdx none with
    | none => exact noFuelAnd_pyerr _ _
    | some e =>
      split
      next e' heq =>
        injection heq with h
        subst h
        rw [expure_eq_ok, exbind_ok]
        by_cases hmem : e.node ∈ s.open_elements
        · rw [if_neg (not_not_intro hmem)]
          by_cases hscope : has_element_in_scope cfg s.arena s.open_elements
              (getNode s.arena e.node).name = true
          · rw [if_neg (not_not_intro hscope)]
            generalize hS2 : (if ¬(s.open_elements.getLast? = some e.node) then
              tb_parse_error s "adoption-agency-1.3" else s) = s2
            have hs2oe : s2.open_elements = s.open_elements := by
              rw [← hS2]; exact ite_parse_error_open_elements _ s _
            have hs2ar : s2.arena = s.arena := by
              rw [← hS2]; exact ite_parse_error_arena _ s _
            have hs2af : s2.active_formatting = s.active_formatting := by
              rw [← hS2]; exact ite_parse_error_active_formatting _ s _
            rw [hs2oe, hs2ar, hs2af]
            obtain ⟨f0, hio⟩ :=
              indexOf?_isSome_of_mem s.open_elements e.node hmem
            obtain ⟨hf0len, hgf0⟩ :=
              indexOf?_eq_some_getElem s.open_elements f0 e.node hio
            have hpyi : pyIndex s.open_elements e.node = .ok f0 := by
              unfold pyIndex; rw [hio]
            rw [hpyi, mapError_ok, exbind_ok]
            cases hfind : (s.open_elements.drop (f0 + 1)).find?
                (fun id => is_special_element cfg s.arena id) with
            | none =>
              obtain ⟨oe1, hpop⟩ := popToFmt_ok e.node s.open_elements.length
                s.open_elements (le_refl _) hmem
              rw [hpop, exbind_ok]
              apply noFuelAnd_ok
              intro s' h
              exact Sum.noConfusion h
            | some fb =>
              dsimp only
              have hfbmem : fb ∈ s.open_elements.drop (f0 + 1) :=
                List.mem_of_find?_eq_some hfind
              obtain ⟨k, hk, hgetk⟩ := List.mem_iff_getElem.mp hfbmem
              have hdlen : (s.open_elements.drop (f0 + 1)).length =
                  s.open_elements.length - (f0 + 1) := List.length_drop _ _
              have hkl : f0 + 1 + k < s.open_elements.length := by omega
              have hgjfb : s.open_elements.getD (f0 + 1 + k) 0 = fb := by
                rw [List.getD_eq_getElem _ _ hkl,
                  show s.open_elements[f0 + 1 + k] =
                    (s.open_elements.drop (f0 + 1))[k] from
                    (List.getElem_drop _).symm]
                exact hgetk
              have hloop := aaInnerLoop_no_fuel e.node fb f0
                (s.open_elements.length + 1)
                ⟨s.arena, s.open_elements, s.active_formatting, fb, fb,
                 (fmtIdx : Int) + 1, 0⟩
                (f0 + 1 + k) (f0 + 1 + k)
                ⟨hnd, hval, by omega, le_refl _, hkl, hgf0, hgjfb, hgjfb⟩
                (by omega)
              cases hrun : aaInnerLoop e.node fb (s.open_elements.length + 1)
                  ⟨s.arena, s.open_elements, s.active_formatting, fb, fb,
                   (fmtIdx : Int) + 1, 0⟩ with
              | error err =>
                rw [exbind_err]
                cases err with
                | fuel => exact absurd hrun hloop.1
                | pyerr m => exact noFuelAnd_pyerr _ _
              | ok stI =>
                rw [exbind_ok]
                obtain ⟨hndI, hvalI, harleI, hgfI, jbI, hjbI0, hjbIlen, hgbI⟩ :=
                  hloop.2 stI hrun
                obtain ⟨v, hv⟩ := pyGet_fmtidx stI.oe f0 (by omega)
                rw [hv, mapError_ok, exbind_ok]
                have hmid : ∀ (ar4 : List ANode),
                    ar4.length = stI.arena.length →
                    NoFuelAnd (fun r => ∀ s', r = Sum.inr s' → TBInv s')
                      ((do
                        let ar5 ← (if should_foster_parenting cfg
                            { s2 with
                              arena := ar4
                              open_elements := stI.oe
                              active_formatting := stI.af }
                            v (some (getNode ar4 stI.last_node).name) false
                            then do
                            let loc ← (appropriate_insertion_location ar4
                              stI.oe v true).mapError AAErr.pyerr
                            (insert_node_at ar4 loc.1 loc.2
                              stI.last_node).mapError AAErr.pyerr
                          else if (getNode ar4 v).isTemplate ∧
                              (getNode ar4 v).templateContent.isSome then
                            pure (append_child ar4
                              ((getNode ar4 v).templateContent.getD 0)
                              stI.last_node)
                          else pure (append_child ar4 v stI.last_node))
                        let entry2 ← (match stI.af.getD fmtIdx none with
                                      | some e2 => pure e2
                                      | none => Except.error
                                          (AAErr.pyerr "bad formatting entry"))
                        let arNfe := create_element ar5 entry2.name
                          (getNode ar5 entry2.node).ns entry2.attrs
                        let af3 := stI.af.set fmtIdx
                          (some { entry2 with node := arNfe.2 })
                        let ar7 ← moveChildren arNfe.1 fb arNfe.2
                          (childLen arNfe.1 fb)
                        let ar8 := append_child ar7 fb arNfe.2
                        let af4 := remove_formatting_entry af3 fmtIdx
                        let af5 := pyInsert af4 (stI.bookmark - 1)
                          (some { entry2 with node := arNfe.2 })
                        let oe2 ← (if e.node ∈ stI.oe then
                            pure (stI.oe.erase e.node)
                          else Except.error
                            (AAErr.pyerr "ValueError: list.remove"))
                        let fb_idx ← (pyIndex oe2 fb).mapError AAErr.pyerr
                        let oe3 := pyInsert oe2 ((fb_idx : Int) + 1) arNfe.2
                        Except.ok (Sum.inr { s2 with
                          arena := ar8
                          open_elements := oe3
                          active_formatting := af5 })) :
                        Except AAErr (TBState ⊕ TBState)) := by
                  intro ar4 har4
                  by_cases hsf : should_foster_parenting cfg
                      { s2 with
                        arena := ar4
                        open_elements := stI.oe
                        active_formatting := stI.af }
                      v (some (getNode ar4 stI.last_node).name) false = true
                  · rw [if_pos hsf]
                    cases hloc : appropriate_insertion_location ar4 stI.oe
                        v true with
                    | error m =>
                      rw [mapError_err, exbind_err, exbind_err]
                      exact noFuelAnd_pyerr _ _
                    | ok loc =>
                      rw [mapError_ok, exbind_ok]
                      dsimp only
                      cases hins : insert_node_at ar4 loc.1 loc.2
                          stI.last_node with
                      | error m =>
                        rw [mapError_err, exbind_err]
                        exact noFuelAnd_pyerr _ _
                      | ok ar5 =>
                        rw [mapError_ok, exbind_ok]
                        exact aaIter_tail_spec s2 stI.af stI.bookmark stI.oe
                          fmtIdx fb e.node f0 jbI ar5 hndI
                          (fun id hid => by
                            rw [insert_node_at_length _ _ _ _ _ hins, har4]
                            exact hvalI id hid)
                          hjbI0 hjbIlen hgfI hgbI
                  · rw [if_neg hsf]
                    by_cases htpl : (getNode ar4 v).isTemplate = true ∧
                        (getNode ar4 v).templateContent.isSome = true
                    · rw [if_pos htpl, expure_eq_ok, exbind_ok]
                      exact aaIter_tail_spec s2 stI.af stI.bookmark stI.oe
                        fmtIdx fb e.node f0 jbI _ hndI
                        (fun id hid => by
                          rw [append_child_length, har4]
                          exact hvalI id hid)
                        hjbI0 hjbIlen hgfI hgbI
                    · rw [if_neg htpl, expure_eq_ok, exbind_ok]
                      exact aaIter_tail_spec s2 stI.af stI.bookmark stI.oe
                        fmtIdx fb e.node f0 jbI _ hndI
                        (fun id hid => by
                          rw [append_child_length, har4]
                          exact hvalI id hid)
                        hjbI0 hjbIlen hgfI hgbI
                split
                next p heqp =>
                  cases hrc : remove_child stI.arena p stI.last_node with
                  | error m =>
                    rw [mapError_err, exbind_err]
                    exact noFuelAnd_pyerr _ _
                  | ok ar4 =>
                    rw [mapError_ok, exbind_ok]
                    exact hmid ar4 (remove_child_length _ _ _ _ hrc)
                next heqp =>
                  rw [expure_eq_ok, exbind_ok]
                  exact hmid stI.arena rfl
          · rw [if_pos hscope]
            apply noFuelAnd_ok
            intro s' h
            exact Sum.noConfusion h
        · rw [if_pos hmem]
          apply noFuelAnd_ok
          intro s' h
          exact Sum.noConfusion h
      next heq => exact Option.noConfusion heq

theorem adoptionAgencyLoop_count (cfg : TBConfig) (subject : String) :
    ∀ (n : Nat) (s : TBState), (adoptionAgencyLoop cfg subject n s).2 ≤ n := by
  intro n
  induction n with
  | zero => intro s; exact le_refl 0
  | succ n ih =>
    intro s
    simp only [adoptionAgencyLoop]
    cases hit : aaIter cfg subject s with
    | error e => show 1 ≤ n + 1; omega
    | ok r =>
      cases r with
      | inl s1 => show 1 ≤ n + 1; omega
      | inr s1 =>
        show (adoptionAgencyLoop cfg subject n s1).2 + 1 ≤ n + 1
        have := ih s1
        omega

theorem adoptionAgencyLoop_no_fuel (cfg : TBConfig) (subject : String) :
    ∀ (n : Nat) (s : TBState), TBInv s →
    (adoptionAgencyLoop cfg subject n s).1 ≠ .error AAErr.fuel := by
  intro n
  induction n with
  | zero =>
    intro s _ hc
    exact Except.noConfusion hc
  | succ n ih =>
    intro s hinv
    have hiter := aaIter_no_fuel cfg subject s hinv
    simp only [adoptionAgencyLoop]
    cases hit : aaIter cfg subject s with
    | error e =>
      cases e with
      | fuel => exact absurd hit hiter.1
      | pyerr m =>
        intro hc
        exact AAErr.noConfusion (Except.error.inj hc)
    | ok r =>
      cases r with
      | inl s1 =>
        intro hc
        exact Except.noConfusion hc
      | inr s1 =>
        show (adoptionAgencyLoop cfg subject n s1).1 ≠ .error .fuel
        exact ih s1 (hiter.2 (Sum.inr s1) hit s1 rfl)

/-- C5: every invocation of the adoption agency terminates and its outer
loop runs at most 8 iterations.  `(adoption_agency cfg subject s).2` counts
the outer `for _ in range(8)` iterations begun; the first conjunct bounds it
by 8.  The second conjunct states that no unbounded `while True` loop of the
algorithm (the pop-to-formatting-element loop of the no-furthest-block case,
the step-10 inner loop, and the step-13 child-moving loop) exhausts the fuel
it was given, i.e. each terminates; Python-exception outcomes (`pyerr`) also
terminate the invocation.  This holds for every subject tag name, every
contents of the `constants.py` tables, and every tree-builder state whose
open-elements stack holds pairwise-distinct handles into the arena — as the
stacks reachable in the source do, since each stack entry is a distinct
live node object. -/
theorem adoption_agency_terminates (cfg : TBConfig) (subject : String)
    (s : TBState) (hnd : s.open_elements.Nodup)
    (hval : ∀ id ∈ s.open_elements, id < s.arena.length) :
    (adoption_agency cfg subject s).2 ≤ 8 ∧
    (adoption_agency cfg subject s).1 ≠ .error AAErr.fuel := by
  unfold adoption_agency
  dsimp only
  split
  · constructor
    · show 0 ≤ 8
      omega
    · intro hc
      exact Except.noConfusion hc
  · exact ⟨adoptionAgencyLoop_count cfg subject 8 s,
      adoptionAgencyLoop_no_fuel cfg subject 8 s ⟨hnd, hval⟩⟩

theorem adoption_agency_terminates_witness :
    ([0, 1] : List Nat).Nodup ∧
    (∀ id ∈ ([0, 1] : List Nat), id <
      ([defaultANode, defaultANode] : List ANode).length) ∧
    ((adoption_agency ⟨[], [], [], [], [], []⟩ "b"
        ⟨[defaultANode, defaultANode], [0, 1], [], false, false, []⟩).2 ≤ 8 ∧
      (adoption_agency ⟨[], [], [], [], [], []⟩ "b"
        ⟨[defaultANode, defaultANode], [0, 1], [], false, false, []⟩).1 ≠
        .error AAErr.fuel) :=
  ⟨by decide, by decide,
    adoption_agency_terminates ⟨[], [], [], [], [], []⟩ "b"
      ⟨[defaultANode, defaultANode], [0, 1], [], false, false, []⟩
      (by decide) (by decide)⟩

end JustHTML
